import Mathlib

/-!
Memory management simulator (`main.c`): embedding and checked properties

The simulator keeps three process-wide singly linked structures: the free
list, the process list (each process carrying its list of allocated blocks)
and the waiting queue.  They are embedded as Lean lists held in one `State`
record; every C function that mutates the globals becomes a function from
`State` to a result and a new `State`.  C `int` values are embedded as `Int`:
in every state reachable from the initial one all addresses and sizes stay in
`[0, MEMORY_SIZE]`, so no 32-bit overflow occurs there.  A statement that
leaves this domain (a size that is not positive) carries the hypothesis that
the results of the two `int` updates of `allocate_memory` stay between
`INT_MIN` and `INT_MAX`.
-/

namespace MemSim

/-! ## Data model -/

/-- The constant `MEMORY_SIZE` of `main.c` (line 5). -/
def MEMORY_SIZE : Int := 65536

/-- The least value of the 32-bit C `int`. -/
def INT_MIN : Int := -2147483648

/-- The greatest value of the 32-bit C `int`. -/
def INT_MAX : Int := 2147483647

/-- A node of the free list (`struct FreeBlock`); the `next` link is the list tail. -/
structure FreeBlock where
  start : Int
  size : Int
deriving DecidableEq

/-- A node of a process's block list (`struct AllocatedBlock`). -/
structure AllocatedBlock where
  start : Int
  size : Int
deriving DecidableEq

/-- A node of the process list (`struct Process`). -/
structure Process where
  process_id : Int
  allocated_blocks : List AllocatedBlock
deriving DecidableEq

/-- The three globals `free_list`, `process_list`, `waiting_queue`.  The queue
is the chain from `front` to `rear`; each `QueueNode` carries the `Process` its
pointer refers to. -/
structure State where
  free_list : List FreeBlock
  process_list : List Process
  waiting_queue : List Process
deriving DecidableEq

/-- The free list built by `initialize_free_list` for an address space of
`memory_size` units: one block starting at 0. -/
def initialize_free_list_of (memory_size : Int) : List FreeBlock :=
  [{ start := 0, size := memory_size }]

/-- The source's `initialize_free_list` (lines 54-60). -/
def initialize_free_list : List FreeBlock :=
  initialize_free_list_of MEMORY_SIZE

/-- The state set up at the top of `main` (lines 302-305), for an address space
of `memory_size` units. -/
def initial_state (memory_size : Int) : State :=
  { free_list := initialize_free_list_of memory_size
    process_list := []
    waiting_queue := [] }

/-! ## Waiting queue -/

/-- The source's `enqueue` (lines 63-73): the new node becomes the rear. -/
def enqueue (queue : List Process) (process : Process) : List Process :=
  queue ++ [process]

/-- The source's `dequeue` (lines 76-84): `none` stands for the `NULL` returned
on an empty queue. -/
def dequeue : List Process → Option Process × List Process
  | [] => (none, [])
  | process :: rest => (some process, rest)

/-! ## Allocation -/

/-- The scan of `allocate_memory` over the free list (lines 92-105 and
131-132): the first block with `size >= size` gives its start address, is
advanced and shrunk by `size`, and is unlinked when its size reaches 0.  The
two updates `current->start += size` and `current->size -= size` are exact
integer arithmetic here; they are the `int` updates of the source as long as
both results lie between `INT_MIN` and `INT_MAX`. -/
def first_fit (size : Int) : List FreeBlock → Option (Int × List FreeBlock)
  | [] => none
  | current :: rest =>
    if current.size ≥ size then
      if current.size - size = 0 then
        some (current.start, rest)
      else
        some (current.start,
          { start := current.start + size, size := current.size - size } :: rest)
    else
      match first_fit size rest with
      | none => none
      | some (start_address, rest') => some (start_address, current :: rest')

/-- Lines 108-111 and 122-126 of `allocate_memory` when the lookup succeeds:
the first process with the id gets `new_block` at the head of its blocks.
`none` when no process has the id. -/
def attach_block (process_id : Int) (new_block : AllocatedBlock) :
    List Process → Option (List Process)
  | [] => none
  | process :: rest =>
    if process.process_id = process_id then
      some ({ process with allocated_blocks := new_block :: process.allocated_blocks } :: rest)
    else
      match attach_block process_id new_block rest with
      | none => none
      | some rest' => some (process :: rest')

/-- Lines 107-126 of `allocate_memory`: find the process, create it at the head
of the process list when it is absent, and push the new block. -/
def record_block (process_id : Int) (new_block : AllocatedBlock)
    (process_list : List Process) : List Process :=
  match attach_block process_id new_block process_list with
  | some process_list' => process_list'
  | none => { process_id := process_id, allocated_blocks := [new_block] } :: process_list

/-- Modelled from the spec: the value of `process` handed to `enqueue` at line
135 of `main.c`.  `allocate_memory` declares no variable of that name in the
scope of line 135, so the source does not say which `Process` is queued.  The
spec's queue entry is `{process_id, requested_size}`; it is carried here as a
`Process` whose id is the requesting id and whose first block has the
requested size, the two fields that `free_memory` reads back at line 223. -/
def pending_process (process_id size : Int) : Process :=
  { process_id := process_id, allocated_blocks := [{ start := 0, size := size }] }

/-- The source's `allocate_memory` (lines 87-137).  `some a` is the returned
start address, `none` the `-1` returned after enqueueing.  The call of
`process_next_command` at line 128 (the command reader, not part of
`main.c`) comes after every update of the globals and is taken to leave them
as they are: the next command is a separate step. -/
def allocate_memory (process_id size : Int) (s : State) : Option Int × State :=
  match first_fit size s.free_list with
  | some (start_address, free_list') =>
    (some start_address,
      { s with
        free_list := free_list'
        process_list :=
          record_block process_id { start := start_address, size := size } s.process_list })
  | none =>
    (none, { s with waiting_queue := enqueue s.waiting_queue (pending_process process_id size) })

/-! ## Release -/

/-- The lookup loop shared by `free_memory` and `terminate_process` (lines
150-153, 281-284): the first process with the id. -/
def find_process (process_id : Int) : List Process → Option Process
  | [] => none
  | process :: rest =>
    if process.process_id = process_id then some process else find_process process_id rest

/-- Lines 160-166 of `free_memory`: the first block whose start is `address`. -/
def find_block (address : Int) : List AllocatedBlock → Option AllocatedBlock
  | [] => none
  | block :: rest => if block.start = address then some block else find_block address rest

/-- Lines 173-178 of `free_memory`: unlink the first block whose start is
`address`. -/
def unlink_block (address : Int) : List AllocatedBlock → List AllocatedBlock
  | [] => []
  | block :: rest => if block.start = address then rest else block :: unlink_block address rest

/-- The in-place update of the found process's block list (lines 173-178 act on
the first process with the id). -/
def set_blocks (process_id : Int) (blocks : List AllocatedBlock) :
    List Process → List Process
  | [] => []
  | process :: rest =>
    if process.process_id = process_id then
      { process with allocated_blocks := blocks } :: rest
    else process :: set_blocks process_id blocks rest

/-- Lines 206-216 of `free_memory`: unlink the first process with the id. -/
def remove_process (process_id : Int) : List Process → List Process
  | [] => []
  | process :: rest =>
    if process.process_id = process_id then rest
    else process :: remove_process process_id rest

/-- The merge pass of `free_memory` (lines 190-202) with `current` in hand and
`current->next` the remaining list: while the next node starts where `current`
ends it is absorbed; otherwise the next node becomes `current`. -/
def merge_from (current : FreeBlock) : List FreeBlock → List FreeBlock
  | [] => [current]
  | next :: rest =>
    if current.start + current.size = next.start then
      merge_from { current with size := current.size + next.size } rest
    else current :: merge_from next rest

/-- The merge pass of `free_memory` (lines 190-202) started at the list head. -/
def coalesce : List FreeBlock → List FreeBlock
  | [] => []
  | current :: rest => merge_from current rest

/-- What `free_memory` did: the two early returns (lines 155-158, 168-171), the
normal completion, and the `NULL` dereference at line 223 when the dequeued
process has no block. -/
inductive FreeResult where
  | process_not_found
  | block_not_found
  | freed
  | null_dereference
deriving DecidableEq

/-- Lines 173-217 of `free_memory`, entered with the found `process` and
`block`: the block is unlinked from the process, a free block of its size is
pushed on the free list, the merge pass runs, and the process is unlinked from
the process list when it has no block left. -/
def release_block (process_id address : Int) (process : Process) (block : AllocatedBlock)
    (s : State) : State :=
  let blocks := unlink_block address process.allocated_blocks
  let process_list1 := set_blocks process_id blocks s.process_list
  { free_list := coalesce ({ start := address, size := block.size } :: s.free_list)
    process_list :=
      match blocks with
      | [] => remove_process process_id process_list1
      | _ :: _ => process_list1
    waiting_queue := s.waiting_queue }

/-- Lines 219-224 of `free_memory`: one `dequeue`, and for a dequeued process
one call of `allocate_memory` with its id and the size of its first block. -/
def retry_waiting (s : State) : FreeResult × State :=
  match dequeue s.waiting_queue with
  | (none, queue) => (FreeResult.freed, { s with waiting_queue := queue })
  | (some waiting_process, queue) =>
    match waiting_process.allocated_blocks with
    | [] => (FreeResult.null_dereference, { s with waiting_queue := queue })
    | first :: _ =>
      (FreeResult.freed,
        (allocate_memory waiting_process.process_id first.size
          { s with waiting_queue := queue }).2)

/-- The source's `free_memory` (lines 149-225). -/
def free_memory (process_id address : Int) (s : State) : FreeResult × State :=
  match find_process process_id s.process_list with
  | none => (FreeResult.process_not_found, s)
  | some process =>
    match find_block address process.allocated_blocks with
    | none => (FreeResult.block_not_found, s)
    | some block => retry_waiting (release_block process_id address process block s)

/-! ## Process creation and termination -/

/-- The source's `create_process` (lines 271-278). -/
def create_process (process_id : Int) (s : State) : State :=
  { s with process_list := { process_id := process_id, allocated_blocks := [] } :: s.process_list }

/-- What `terminate_process` did: the early return (lines 286-289), the normal
completion, the `NULL` dereference of `free_memory` at line 223, and the read
of `block->next` at line 295 from a node that `free_memory` has already handed
to `free` at line 187. -/
inductive TerminateResult where
  | process_not_found
  | terminated
  | null_dereference
  | use_after_free
deriving DecidableEq

/-- The loop of `terminate_process` (lines 292-296).  When `free_memory`
completes it has unlinked the block starting at `block->start` and released
its node with `free`; the loop then reads `block->next` from that node (line
295), and the run stops there with the state `free_memory` left.  In
`terminate_process` the loop starts at the head of the block list of the
process that `free_memory` finds, so the released node is `block` itself.
Only when `free_memory` returns early, leaving the node alone, does the loop
reach the next block. -/
def terminate_loop (process_id : Int) : List AllocatedBlock → State → TerminateResult × State
  | [], s => (TerminateResult.terminated, s)
  | block :: rest, s =>
    match free_memory process_id block.start s with
    | (FreeResult.freed, s') => (TerminateResult.use_after_free, s')
    | (FreeResult.null_dereference, s') => (TerminateResult.null_dereference, s')
    | (_, s') => terminate_loop process_id rest s'

/-- The source's `terminate_process` (lines 280-299). -/
def terminate_process (process_id : Int) (s : State) : TerminateResult × State :=
  match find_process process_id s.process_list with
  | none => (TerminateResult.process_not_found, s)
  | some process => terminate_loop process_id process.allocated_blocks s

/-! ## Reachable states -/

/-- States reached from the initial state of an address space of `memory_size`
units by `create`, `allocate` with a positive size, `free` and `terminate`.
For a `terminate` that stops at a fault the state is the one held when it
stopped. -/
inductive Reachable (memory_size : Int) : State → Prop where
  | init : Reachable memory_size (initial_state memory_size)
  | create (process_id : Int) {s : State} :
      Reachable memory_size s → Reachable memory_size (create_process process_id s)
  | allocate (process_id size : Int) {s : State} :
      0 < size → Reachable memory_size s →
      Reachable memory_size (allocate_memory process_id size s).2
  | free (process_id address : Int) {s : State} :
      Reachable memory_size s → Reachable memory_size (free_memory process_id address s).2
  | terminate (process_id : Int) {s : State} :
      Reachable memory_size s → Reachable memory_size (terminate_process process_id s).2

/-! ## Coverage of the address space -/

/-- Whether address `a` lies in the free block `[start, start + size)`. -/
def FreeBlock.covers (r : FreeBlock) (a : Int) : Bool :=
  decide (r.start ≤ a ∧ a < r.start + r.size)

/-- Whether address `a` lies in the allocated block `[start, start + size)`. -/
def AllocatedBlock.covers (b : AllocatedBlock) (a : Int) : Bool :=
  decide (b.start ≤ a ∧ a < b.start + b.size)

/-- Number of free blocks of the list that hold address `a`. -/
def free_count (a : Int) (l : List FreeBlock) : Nat :=
  l.countP (fun r => r.covers a)

/-- Number of allocated blocks of the list that hold address `a`. -/
def block_count (a : Int) (l : List AllocatedBlock) : Nat :=
  l.countP (fun b => b.covers a)

/-- Number of allocated blocks, over all processes, that hold address `a`. -/
def allocated_count (a : Int) : List Process → Nat
  | [] => 0
  | process :: rest => block_count a process.allocated_blocks + allocated_count a rest

/-- A free block of positive size inside `[0, N)`. -/
def FreeBlock.within (N : Int) (r : FreeBlock) : Prop :=
  0 < r.size ∧ 0 ≤ r.start ∧ r.start + r.size ≤ N

/-- An allocated block of positive size inside `[0, N)`. -/
def AllocatedBlock.within (N : Int) (b : AllocatedBlock) : Prop :=
  0 < b.size ∧ 0 ≤ b.start ∧ b.start + b.size ≤ N

/-- The invariant carried through every operation: all free and allocated
blocks are non-empty and inside `[0, N)`, every address of `[0, N)` is held by
exactly one of them, and every queued entry is a pending request of positive
size. -/
structure WellFormed (N : Int) (s : State) : Prop where
  free_ok : ∀ r ∈ s.free_list, r.within N
  block_ok : ∀ p ∈ s.process_list, ∀ b ∈ p.allocated_blocks, b.within N
  cover : ∀ a : Int, 0 ≤ a → a < N →
    free_count a s.free_list + allocated_count a s.process_list = 1
  queue_ok : ∀ q ∈ s.waiting_queue, ∃ id size, q = pending_process id size ∧ 0 < size

/-! ## Sequences of calls -/

/-- One call of `enqueue` for each process of the list, in list order. -/
def enqueue_all (queue : List Process) : List Process → List Process
  | [] => queue
  | process :: rest => enqueue_all (enqueue queue process) rest

/-- `n` successive calls of `dequeue`: the returned values in call order
(`none` for `NULL`) and the queue left at the end. -/
def dequeue_many : Nat → List Process → List (Option Process) × List Process
  | 0, queue => ([], queue)
  | n + 1, queue =>
    ((dequeue queue).1 :: (dequeue_many n (dequeue queue).2).1,
      (dequeue_many n (dequeue queue).2).2)

/-- One call of `allocate_memory` for each request `(process_id, size)` of the
list, in list order: the returned values and the final state. -/
def allocate_all : List (Int × Int) → State → List (Option Int) × State
  | [], s => ([], s)
  | request :: rest, s =>
    ((allocate_memory request.1 request.2 s).1 ::
        (allocate_all rest (allocate_memory request.1 request.2 s).2).1,
      (allocate_all rest (allocate_memory request.1 request.2 s).2).2)

/-- One call of `free_memory` for each pair `(process_id, address)` of the
list, in list order: the outcomes and the final state. -/
def free_all : List (Int × Int) → State → List FreeResult × State
  | [], s => ([], s)
  | call :: rest, s =>
    ((free_memory call.1 call.2 s).1 :: (free_all rest (free_memory call.1 call.2 s).2).1,
      (free_all rest (free_memory call.1 call.2 s).2).2)

/-- The free list of an address space of `memory_size` units whose first `c`
units are allocated and whose remainder is one free block: empty when nothing
remains. -/
def remaining_free (memory_size c : Int) : List FreeBlock :=
  if c = memory_size then [] else [{ start := c, size := memory_size - c }]

/-! ## Memory report -/

/-- A table row printed by `show_memory`: start address, end address
(`start + size - 1`) and the status column, `none` for `Free` and `some id`
for `Process id`. -/
structure Row where
  start : Int
  stop : Int
  owner : Option Int
deriving DecidableEq

/-- The `else` branch of the `show_memory` loop (lines 246-260): the walk over
all processes.  In each process the first block starting at the running
address prints a row and advances the address by its size; the walk then goes
on to the next process with the advanced address.  Returns the rows printed
and the running address at the end; `found` is set exactly when a row was
printed. -/
def scan_processes (current_address : Int) : List Process → List Row × Int
  | [] => ([], current_address)
  | process :: rest =>
    match find_block current_address process.allocated_blocks with
    | some block =>
      ({ start := block.start, stop := block.start + block.size - 1,
         owner := some process.process_id } ::
          (scan_processes (current_address + block.size) rest).1,
        (scan_processes (current_address + block.size) rest).2)
    | none => scan_processes current_address rest

/-- The `while (current_address < MEMORY_SIZE)` loop of `show_memory` (lines
237-266) run for at most `fuel` passes, with `free_current` the part of the
free list not yet walked.  A pass that prints nothing advances the address by
one. -/
def show_memory_loop (memory_size : Int) (process_list : List Process) :
    Nat → Int → List FreeBlock → List Row
  | 0, _, _ => []
  | fuel + 1, current_address, free_current =>
    if current_address < memory_size then
      match free_current with
      | [] =>
        match scan_processes current_address process_list with
        | ([], _) => show_memory_loop memory_size process_list fuel (current_address + 1) []
        | (row :: rows, address) =>
          (row :: rows) ++ show_memory_loop memory_size process_list fuel address []
      | free :: rest =>
        if free.start = current_address then
          { start := free.start, stop := free.start + free.size - 1, owner := none } ::
            show_memory_loop memory_size process_list fuel (current_address + free.size) rest
        else
          match scan_processes current_address process_list with
          | ([], _) =>
            show_memory_loop memory_size process_list fuel (current_address + 1) (free :: rest)
          | (row :: rows, address) =>
            (row :: rows) ++
              show_memory_loop memory_size process_list fuel address (free :: rest)
    else []

/-- The rows printed by the source's `show_memory` (lines 227-269).  Every pass
of the loop advances the running address by at least one when all blocks have
positive size, so `MEMORY_SIZE` passes are enough to leave the loop. -/
def show_memory (s : State) : List Row :=
  show_memory_loop MEMORY_SIZE s.process_list MEMORY_SIZE.toNat 0 s.free_list

/-! ## Lemmas on the list operations -/

@[simp] theorem free_count_nil (a : Int) : free_count a [] = 0 := rfl

@[simp] theorem free_count_cons (a : Int) (r : FreeBlock) (l : List FreeBlock) :
    free_count a (r :: l) = free_count a l + (if r.start ≤ a ∧ a < r.start + r.size then 1 else 0) := by
  simp [free_count, List.countP_cons, FreeBlock.covers]

@[simp] theorem block_count_nil (a : Int) : block_count a [] = 0 := rfl

@[simp] theorem block_count_cons (a : Int) (b : AllocatedBlock) (l : List AllocatedBlock) :
    block_count a (b :: l) = block_count a l + (if b.start ≤ a ∧ a < b.start + b.size then 1 else 0) := by
  simp [block_count, List.countP_cons, AllocatedBlock.covers]

theorem first_fit_sound (N size : Int) (hsize : 0 < size) :
    ∀ (l : List FreeBlock) (a : Int) (l' : List FreeBlock),
      first_fit size l = some (a, l') → (∀ r ∈ l, r.within N) →
      (∀ r ∈ l', r.within N) ∧ (0 ≤ a ∧ a + size ≤ N) ∧
      ∀ x : Int, free_count x l = free_count x l' + (if a ≤ x ∧ x < a + size then 1 else 0) := by
  intro l
  induction l with
  | nil => intro a l' h; simp [first_fit] at h
  | cons c rest ih =>
    intro a l' h hl
    have hc : c.within N := hl c (List.mem_cons_self _ _)
    have hrest : ∀ r ∈ rest, r.within N := fun r hr => hl r (List.mem_cons_of_mem _ hr)
    unfold FreeBlock.within at hc
    unfold first_fit at h
    split_ifs at h with h1 h2
    · simp at h
      obtain ⟨rfl, rfl⟩ := h
      refine ⟨hrest, ⟨by omega, by omega⟩, ?_⟩
      intro x
      simp
      split_ifs <;> omega
    · simp at h
      obtain ⟨rfl, rfl⟩ := h
      refine ⟨?_, ⟨by omega, by omega⟩, ?_⟩
      · intro r hr
        rcases List.mem_cons.1 hr with rfl | hr
        · unfold FreeBlock.within; simp; omega
        · exact hrest r hr
      · intro x
        simp
        split_ifs <;> omega
    · cases hff : first_fit size rest with
      | none => simp [hff] at h
      | some pr =>
        obtain ⟨a0, l0⟩ := pr
        simp [hff] at h
        obtain ⟨rfl, rfl⟩ := h
        obtain ⟨h1', h2', h3'⟩ := ih a0 l0 hff hrest
        refine ⟨?_, h2', ?_⟩
        · intro r hr
          rcases List.mem_cons.1 hr with rfl | hr
          · exact hl _ (List.mem_cons_self _ _)
          · exact h1' r hr
        · intro x
          simp [h3' x]
          omega


theorem attach_block_sound (N id : Int) (b : AllocatedBlock) (hb : b.within N) :
    ∀ (procs procs' : List Process), attach_block id b procs = some procs' →
      (∀ p ∈ procs, ∀ c ∈ p.allocated_blocks, c.within N) →
      (∀ p ∈ procs', ∀ c ∈ p.allocated_blocks, c.within N) ∧
      ∀ x : Int, allocated_count x procs' =
        allocated_count x procs + (if b.start ≤ x ∧ x < b.start + b.size then 1 else 0) := by
  intro procs
  induction procs with
  | nil => intro procs' h; simp [attach_block] at h
  | cons p rest ih =>
    intro procs' h hp
    unfold attach_block at h
    split_ifs at h with h1
    · simp at h
      subst h
      constructor
      · intro q hq c hc
        rcases List.mem_cons.1 hq with rfl | hq
        · rcases List.mem_cons.1 hc with rfl | hc
          · exact hb
          · exact hp p (List.mem_cons_self _ _) c hc
        · exact hp q (List.mem_cons_of_mem _ hq) c hc
      · intro x
        simp [allocated_count]
        omega
    · cases hat : attach_block id b rest with
      | none => simp [hat] at h
      | some r =>
        simp [hat] at h
        subst h
        obtain ⟨h1', h2'⟩ := ih r hat (fun q hq => hp q (List.mem_cons_of_mem _ hq))
        constructor
        · intro q hq c hc
          rcases List.mem_cons.1 hq with rfl | hq
          · exact hp _ (List.mem_cons_self _ _) c hc
          · exact h1' q hq c hc
        · intro x
          simp [allocated_count, h2' x]
          omega

theorem record_block_sound (N id : Int) (b : AllocatedBlock) (hb : b.within N)
    (procs : List Process) (hp : ∀ p ∈ procs, ∀ c ∈ p.allocated_blocks, c.within N) :
    (∀ p ∈ record_block id b procs, ∀ c ∈ p.allocated_blocks, c.within N) ∧
    ∀ x : Int, allocated_count x (record_block id b procs) =
      allocated_count x procs + (if b.start ≤ x ∧ x < b.start + b.size then 1 else 0) := by
  unfold record_block
  cases hat : attach_block id b procs with
  | some r => simpa using attach_block_sound N id b hb procs r hat hp
  | none =>
    simp only
    constructor
    · intro q hq c hc
      rcases List.mem_cons.1 hq with rfl | hq
      · simp at hc
        subst hc
        exact hb
      · exact hp q hq c hc
    · intro x
      simp [allocated_count]
      omega

theorem allocate_memory_wf (N id size : Int) (hsize : 0 < size) (s : State)
    (h : WellFormed N s) : WellFormed N (allocate_memory id size s).2 := by
  unfold allocate_memory
  cases hff : first_fit size s.free_list with
  | none =>
    simp only
    refine ⟨h.free_ok, h.block_ok, h.cover, ?_⟩
    intro q hq
    simp [enqueue] at hq
    rcases hq with hq | rfl
    · exact h.queue_ok q hq
    · exact ⟨_, _, rfl, hsize⟩
  | some pr =>
    obtain ⟨a, l'⟩ := pr
    simp only
    obtain ⟨h1, h2, h3⟩ := first_fit_sound N size hsize s.free_list a l' hff h.free_ok
    have hb : AllocatedBlock.within N { start := a, size := size } := by
      unfold AllocatedBlock.within; simp; omega
    obtain ⟨h4, h5⟩ := record_block_sound N id _ hb s.process_list h.block_ok
    refine ⟨h1, h4, ?_, h.queue_ok⟩
    intro x hx0 hxN
    have := h.cover x hx0 hxN
    rw [h3 x] at this
    rw [h5 x]
    simp
    omega


theorem merge_from_sound (N : Int) :
    ∀ (l : List FreeBlock) (cur : FreeBlock), cur.within N → (∀ r ∈ l, r.within N) →
      (∀ r ∈ merge_from cur l, r.within N) ∧
      ∀ x : Int, free_count x (merge_from cur l) =
        free_count x l + (if cur.start ≤ x ∧ x < cur.start + cur.size then 1 else 0) := by
  intro l
  induction l with
  | nil =>
    intro cur hc _
    simp [merge_from]
    exact hc
  | cons n rest ih =>
    intro cur hc hl
    have hn : n.within N := hl n (List.mem_cons_self _ _)
    have hrest : ∀ r ∈ rest, r.within N := fun r hr => hl r (List.mem_cons_of_mem _ hr)
    unfold FreeBlock.within at hc hn
    unfold merge_from
    split_ifs with h1
    · have hm : FreeBlock.within N { cur with size := cur.size + n.size } := by
        unfold FreeBlock.within; simp; omega
      obtain ⟨h2, h3⟩ := ih _ hm hrest
      refine ⟨h2, ?_⟩
      intro x
      rw [h3 x]
      simp
      split_ifs <;> omega
    · obtain ⟨h2, h3⟩ := ih n hn hrest
      constructor
      · intro r hr
        rcases List.mem_cons.1 hr with rfl | hr
        · exact hc
        · exact h2 r hr
      · intro x
        simp [h3 x]

theorem coalesce_sound (N : Int) (l : List FreeBlock) (hl : ∀ r ∈ l, r.within N) :
    (∀ r ∈ coalesce l, r.within N) ∧ ∀ x : Int, free_count x (coalesce l) = free_count x l := by
  cases l with
  | nil => simp [coalesce]
  | cons c rest =>
    obtain ⟨h1, h2⟩ := merge_from_sound N rest c (hl c (List.mem_cons_self _ _))
      (fun r hr => hl r (List.mem_cons_of_mem _ hr))
    refine ⟨h1, ?_⟩
    intro x
    simp [coalesce, h2 x]

theorem find_block_sound (address : Int) :
    ∀ (blocks : List AllocatedBlock) (b : AllocatedBlock), find_block address blocks = some b →
      b.start = address ∧ b ∈ blocks ∧
      (∀ c ∈ unlink_block address blocks, c ∈ blocks) ∧
      ∀ x : Int, block_count x blocks = block_count x (unlink_block address blocks) +
        (if b.start ≤ x ∧ x < b.start + b.size then 1 else 0) := by
  intro blocks
  induction blocks with
  | nil => intro b h; simp [find_block] at h
  | cons c rest ih =>
    intro b h
    unfold find_block at h
    unfold unlink_block
    split_ifs at h ⊢ with h1
    · simp at h
      subst h
      refine ⟨h1, List.mem_cons_self _ _, fun c hc => List.mem_cons_of_mem _ hc, ?_⟩
      intro x
      simp
    · obtain ⟨h2, h3, h4, h5⟩ := ih b h
      refine ⟨h2, List.mem_cons_of_mem _ h3, ?_, ?_⟩
      · intro d hd
        rcases List.mem_cons.1 hd with rfl | hd
        · exact List.mem_cons_self _ _
        · exact List.mem_cons_of_mem _ (h4 d hd)
      · intro x
        simp [h5 x]
        omega

theorem find_process_mem (id : Int) :
    ∀ (procs : List Process) (p : Process), find_process id procs = some p →
      p ∈ procs ∧ p.process_id = id := by
  intro procs
  induction procs with
  | nil => intro p h; simp [find_process] at h
  | cons q rest ih =>
    intro p h
    unfold find_process at h
    split_ifs at h with h1
    · simp at h
      subst h
      exact ⟨List.mem_cons_self _ _, h1⟩
    · exact ⟨List.mem_cons_of_mem _ (ih p h).1, (ih p h).2⟩

theorem set_blocks_sound (id : Int) (blocks : List AllocatedBlock) :
    ∀ (procs : List Process) (p : Process), find_process id procs = some p →
      (∀ q ∈ set_blocks id blocks procs, q ∈ procs ∨ q.allocated_blocks = blocks) ∧
      ∀ x : Int, allocated_count x (set_blocks id blocks procs) + block_count x p.allocated_blocks =
        allocated_count x procs + block_count x blocks := by
  intro procs
  induction procs with
  | nil => intro p h; simp [find_process] at h
  | cons q rest ih =>
    intro p h
    unfold find_process at h
    unfold set_blocks
    split_ifs at h ⊢ with h1
    · simp at h
      subst h
      constructor
      · intro r hr
        rcases List.mem_cons.1 hr with rfl | hr
        · right; rfl
        · left; exact List.mem_cons_of_mem _ hr
      · intro x
        simp [allocated_count]
        omega
    · obtain ⟨h2, h3⟩ := ih p h
      constructor
      · intro r hr
        rcases List.mem_cons.1 hr with rfl | hr
        · left; exact List.mem_cons_self _ _
        · rcases h2 r hr with h4 | h4
          · left; exact List.mem_cons_of_mem _ h4
          · right; exact h4
      · intro x
        have := h3 x
        simp [allocated_count]
        omega

theorem remove_process_sound (id : Int) :
    ∀ (procs : List Process) (p : Process), find_process id procs = some p →
      (∀ q ∈ remove_process id procs, q ∈ procs) ∧
      ∀ x : Int, allocated_count x (remove_process id procs) + block_count x p.allocated_blocks =
        allocated_count x procs := by
  intro procs
  induction procs with
  | nil => intro p h; simp [find_process] at h
  | cons q rest ih =>
    intro p h
    unfold find_process at h
    unfold remove_process
    split_ifs at h ⊢ with h1
    · simp at h
      subst h
      refine ⟨fun r hr => List.mem_cons_of_mem _ hr, ?_⟩
      intro x
      simp [allocated_count]
      omega
    · obtain ⟨h2, h3⟩ := ih p h
      constructor
      · intro r hr
        rcases List.mem_cons.1 hr with rfl | hr
        · exact List.mem_cons_self _ _
        · exact List.mem_cons_of_mem _ (h2 r hr)
      · intro x
        have := h3 x
        simp [allocated_count]
        omega

theorem find_process_set_blocks (id : Int) (blocks : List AllocatedBlock) :
    ∀ (procs : List Process) (p : Process), find_process id procs = some p →
      find_process id (set_blocks id blocks procs) =
        some { p with allocated_blocks := blocks } := by
  intro procs
  induction procs with
  | nil => intro p h; simp [find_process] at h
  | cons q rest ih =>
    intro p h
    unfold find_process at h
    unfold set_blocks
    split_ifs at h ⊢ with h1
    · simp at h
      subst h
      simp [find_process, h1]
    · simp [find_process, h1]
      exact ih p h


theorem release_block_wf (N id address : Int) (s : State) (h : WellFormed N s)
    (p : Process) (b : AllocatedBlock) (hp : find_process id s.process_list = some p)
    (hb : find_block address p.allocated_blocks = some b) :
    WellFormed N (release_block id address p b s) := by
  obtain ⟨hb1, hb2, hb3, hb4⟩ := find_block_sound address p.allocated_blocks b hb
  obtain ⟨hp1, _⟩ := find_process_mem id s.process_list p hp
  have hbw : b.within N := h.block_ok p hp1 b hb2
  have hnew : FreeBlock.within N { start := address, size := b.size } := by
    unfold AllocatedBlock.within at hbw
    unfold FreeBlock.within; simp; omega
  obtain ⟨hc1, hc2⟩ := coalesce_sound N ({ start := address, size := b.size } :: s.free_list)
    (by
      intro r hr
      rcases List.mem_cons.1 hr with rfl | hr
      · exact hnew
      · exact h.free_ok r hr)
  obtain ⟨hs1, hs2⟩ := set_blocks_sound id (unlink_block address p.allocated_blocks)
    s.process_list p hp
  have hset_ok : ∀ q ∈ set_blocks id (unlink_block address p.allocated_blocks) s.process_list,
      ∀ c ∈ q.allocated_blocks, c.within N := by
    intro q hq c hc
    rcases hs1 q hq with h1 | h1
    · exact h.block_ok q h1 c hc
    · rw [h1] at hc
      exact h.block_ok p hp1 c (hb3 c hc)
  have hcount : ∀ x : Int, 0 ≤ x → x < N →
      free_count x (coalesce ({ start := address, size := b.size } :: s.free_list)) +
        allocated_count x (set_blocks id (unlink_block address p.allocated_blocks) s.process_list)
        = 1 := by
    intro x hx0 hxN
    have e1 := h.cover x hx0 hxN
    have e2 := hs2 x
    have e3 := hb4 x
    rw [hc2 x]
    simp
    rw [hb1] at e3
    omega
  unfold release_block
  simp only
  cases hu : unlink_block address p.allocated_blocks with
  | nil =>
    simp only
    rw [hu] at hs2 hset_ok hcount
    have hf := find_process_set_blocks id [] s.process_list p hp
    obtain ⟨hr1, hr2⟩ := remove_process_sound id _ _ hf
    refine ⟨hc1, fun q hq => hset_ok q (hr1 q hq), ?_, h.queue_ok⟩
    intro x hx0 hxN
    have e1 := hcount x hx0 hxN
    have e2 := hr2 x
    simp at e2
    dsimp only
    omega
  | cons c rest =>
    simp only
    rw [hu] at hset_ok hcount
    exact ⟨hc1, hset_ok, hcount, h.queue_ok⟩

theorem retry_waiting_wf (N : Int) (s : State) (h : WellFormed N s) :
    WellFormed N (retry_waiting s).2 ∧ (retry_waiting s).1 = FreeResult.freed := by
  unfold retry_waiting
  cases hq : s.waiting_queue with
  | nil =>
    simp only [dequeue]
    exact ⟨⟨h.free_ok, h.block_ok, h.cover, by simp⟩, trivial⟩
  | cons w rest =>
    simp only [dequeue]
    obtain ⟨wid, wsize, rfl, hpos⟩ := h.queue_ok w (by rw [hq]; exact List.mem_cons_self _ _)
    simp only [pending_process]
    refine ⟨?_, trivial⟩
    apply allocate_memory_wf N _ _ hpos
    refine ⟨h.free_ok, h.block_ok, h.cover, ?_⟩
    intro q hq'
    exact h.queue_ok q (by rw [hq]; exact List.mem_cons_of_mem _ hq')

theorem free_memory_wf (N id address : Int) (s : State) (h : WellFormed N s) :
    WellFormed N (free_memory id address s).2 ∧
      (free_memory id address s).1 ≠ FreeResult.null_dereference := by
  unfold free_memory
  cases hp : find_process id s.process_list with
  | none => exact ⟨h, by simp⟩
  | some p =>
    simp only
    cases hb : find_block address p.allocated_blocks with
    | none => exact ⟨h, by simp⟩
    | some b =>
      simp only
      obtain ⟨h1, h2⟩ := retry_waiting_wf N _ (release_block_wf N id address s h p b hp hb)
      exact ⟨h1, by rw [h2]; simp⟩

theorem terminate_loop_wf (N id : Int) :
    ∀ (blocks : List AllocatedBlock) (s : State), WellFormed N s →
      WellFormed N (terminate_loop id blocks s).2 := by
  intro blocks
  induction blocks with
  | nil => intro s h; exact h
  | cons b rest ih =>
    intro s h
    obtain ⟨h1, h2⟩ := free_memory_wf N id b.start s h
    unfold terminate_loop
    cases hf : free_memory id b.start s with
    | mk r s' =>
      rw [hf] at h1 h2
      cases r <;> simp only <;> first | exact ih s' h1 | exact h1

theorem terminate_process_wf (N id : Int) (s : State) (h : WellFormed N s) :
    WellFormed N (terminate_process id s).2 := by
  unfold terminate_process
  cases hp : find_process id s.process_list with
  | none => exact h
  | some p => exact terminate_loop_wf N id p.allocated_blocks s h

theorem create_process_wf (N id : Int) (s : State) (h : WellFormed N s) :
    WellFormed N (create_process id s) := by
  refine ⟨h.free_ok, ?_, ?_, h.queue_ok⟩
  · intro p hp c hc
    simp [create_process] at hp
    rcases hp with rfl | hp
    · simp at hc
    · exact h.block_ok p hp c hc
  · intro x hx0 hxN
    simpa [create_process, allocated_count] using h.cover x hx0 hxN

theorem initial_state_wf (N : Int) (hN : 0 < N) : WellFormed N (initial_state N) := by
  refine ⟨?_, by simp [initial_state], ?_, by simp [initial_state]⟩
  · intro r hr
    simp [initial_state, initialize_free_list_of] at hr
    subst hr
    unfold FreeBlock.within
    simp
    omega
  · intro x hx0 hxN
    simp [initial_state, initialize_free_list_of, allocated_count]
    omega

theorem reachable_wf (N : Int) (hN : 0 < N) (s : State) (h : Reachable N s) :
    WellFormed N s := by
  induction h with
  | init => exact initial_state_wf N hN
  | create id _ ih => exact create_process_wf N id _ ih
  | allocate id size hsize _ ih => exact allocate_memory_wf N id size hsize _ ih
  | free id address _ ih => exact (free_memory_wf N id address _ ih).1
  | terminate id _ ih => exact terminate_process_wf N id _ ih

/-! ## Coverage invariant and coalescing -/

/-- C1 (coverage invariant): in every state reachable from the initial state by
create, allocate with a positive size, free and terminate, every address of
`[0, MEMORY_SIZE)` is held by exactly one block among the free blocks and the
allocated blocks of all processes, and every free or allocated block is
non-empty and lies inside `[0, MEMORY_SIZE)`. -/
theorem coverage_invariant (s : State) (h : Reachable MEMORY_SIZE s) :
    (∀ a : Int, 0 ≤ a → a < MEMORY_SIZE →
      free_count a s.free_list + allocated_count a s.process_list = 1) ∧
    (∀ r ∈ s.free_list, 0 < r.size ∧ 0 ≤ r.start ∧ r.start + r.size ≤ MEMORY_SIZE) ∧
    (∀ p ∈ s.process_list, ∀ b ∈ p.allocated_blocks,
      0 < b.size ∧ 0 ≤ b.start ∧ b.start + b.size ≤ MEMORY_SIZE) := by
  have hwf := reachable_wf MEMORY_SIZE (by decide) s h
  exact ⟨hwf.cover, hwf.free_ok, hwf.block_ok⟩

/-- Witness for C1: the state after `allocate 1 10`, `allocate 2 20`, `free 1 0`. -/
theorem coverage_invariant_witness :
    Reachable MEMORY_SIZE
      (free_memory 1 0 (allocate_memory 2 20
        (allocate_memory 1 10 (initial_state MEMORY_SIZE)).2).2).2 ∧
    ((∀ a : Int, 0 ≤ a → a < MEMORY_SIZE →
      free_count a (free_memory 1 0 (allocate_memory 2 20
        (allocate_memory 1 10 (initial_state MEMORY_SIZE)).2).2).2.free_list +
      allocated_count a (free_memory 1 0 (allocate_memory 2 20
        (allocate_memory 1 10 (initial_state MEMORY_SIZE)).2).2).2.process_list = 1) ∧
    (∀ r ∈ (free_memory 1 0 (allocate_memory 2 20
        (allocate_memory 1 10 (initial_state MEMORY_SIZE)).2).2).2.free_list,
      0 < r.size ∧ 0 ≤ r.start ∧ r.start + r.size ≤ MEMORY_SIZE) ∧
    (∀ p ∈ (free_memory 1 0 (allocate_memory 2 20
        (allocate_memory 1 10 (initial_state MEMORY_SIZE)).2).2).2.process_list,
      ∀ b ∈ p.allocated_blocks,
      0 < b.size ∧ 0 ≤ b.start ∧ b.start + b.size ≤ MEMORY_SIZE)) :=
  ⟨Reachable.free 1 0 (Reachable.allocate 2 20 (by decide)
      (Reachable.allocate 1 10 (by decide) Reachable.init)),
    coverage_invariant _ (Reachable.free 1 0 (Reachable.allocate 2 20 (by decide)
      (Reachable.allocate 1 10 (by decide) Reachable.init)))⟩

/-- C2 (coalescing), evaluated on the code: after `allocate 1 10`, `allocate 2
10`, `free 1 0`, the call `free 2 10` succeeds and leaves the free list
`[10,20), [0,10), [20,65536)`: the merge pass compares only a node with its
list successor, so ranges that touch in the address space stay separate. -/
theorem coalescing_leaves_adjacent_ranges :
    (free_memory 2 10 (free_memory 1 0 (allocate_memory 2 10
      (allocate_memory 1 10 (initial_state MEMORY_SIZE)).2).2).2).1 = FreeResult.freed ∧
    (free_memory 2 10 (free_memory 1 0 (allocate_memory 2 10
      (allocate_memory 1 10 (initial_state MEMORY_SIZE)).2).2).2).2.free_list =
      [{ start := 10, size := 10 }, { start := 0, size := 10 }, { start := 20, size := 65516 }] ∧
    ∃ a ∈ (free_memory 2 10 (free_memory 1 0 (allocate_memory 2 10
        (allocate_memory 1 10 (initial_state MEMORY_SIZE)).2).2).2).2.free_list,
      ∃ b ∈ (free_memory 2 10 (free_memory 1 0 (allocate_memory 2 10
        (allocate_memory 1 10 (initial_state MEMORY_SIZE)).2).2).2).2.free_list,
      a.start + a.size = b.start := by
  have e : (free_memory 2 10 (free_memory 1 0 (allocate_memory 2 10
      (allocate_memory 1 10 (initial_state MEMORY_SIZE)).2).2).2) =
      (FreeResult.freed,
        { free_list := [{ start := 10, size := 10 }, { start := 0, size := 10 },
            { start := 20, size := 65516 }],
          process_list := [], waiting_queue := [] }) := by
    decide
  rw [e]
  refine ⟨rfl, rfl, ⟨0, 10⟩, by simp, ⟨10, 10⟩, by simp, by decide⟩

/-! ## First fit -/

theorem first_fit_none_iff (size : Int) :
    ∀ l : List FreeBlock, first_fit size l = none ↔ ∀ r ∈ l, r.size < size := by
  intro l
  induction l with
  | nil => simp [first_fit]
  | cons c rest ih =>
    unfold first_fit
    split_ifs with h1 h2
    · simp
      omega
    · simp
      omega
    · cases hff : first_fit size rest with
      | none =>
        simp
        exact ⟨by omega, ih.1 hff⟩
      | some pr =>
        simp
        intro _
        by_contra hcon
        push_neg at hcon
        have := ih.2 hcon
        rw [hff] at this
        simp at this

theorem first_fit_some (size : Int) :
    ∀ (l : List FreeBlock) (a : Int) (l' : List FreeBlock), first_fit size l = some (a, l') →
      ∃ pre r post, l = pre ++ r :: post ∧ (∀ q ∈ pre, q.size < size) ∧ size ≤ r.size ∧
        a = r.start ∧
        l' = pre ++ (if r.size - size = 0 then post
          else { start := r.start + size, size := r.size - size } :: post) := by
  intro l
  induction l with
  | nil => intro a l' h; simp [first_fit] at h
  | cons c rest ih =>
    intro a l' h
    unfold first_fit at h
    split_ifs at h with h1 h2
    · simp at h
      obtain ⟨rfl, rfl⟩ := h
      exact ⟨[], c, rest, rfl, by simp, h1, rfl, by simp [h2]⟩
    · simp at h
      obtain ⟨rfl, rfl⟩ := h
      exact ⟨[], c, rest, rfl, by simp, h1, rfl, by simp [h2]⟩
    · cases hff : first_fit size rest with
      | none => simp [hff] at h
      | some pr =>
        obtain ⟨a0, l0⟩ := pr
        simp [hff] at h
        obtain ⟨rfl, rfl⟩ := h
        obtain ⟨pre, r, post, e1, e2, e3, e4, e5⟩ := ih a0 l0 hff
        refine ⟨c :: pre, r, post, by simp [e1], ?_, e3, e4, by simp [e5]⟩
        intro q hq
        rcases List.mem_cons.1 hq with rfl | hq
        · omega
        · exact e2 q hq

/-- C3 (first fit): for a positive size, `allocate_memory` returns an address
exactly when some free block has at least the requested size; the address is
then the start of the first such block in list order (every block before it is
too small); when no block fits the result is the pending one. -/
theorem first_fit_allocation (s : State) (id size : Int) (_hsize : 0 < size) :
    ((∃ a, (allocate_memory id size s).1 = some a) ↔ ∃ r ∈ s.free_list, size ≤ r.size) ∧
    (∀ a, (allocate_memory id size s).1 = some a →
      ∃ pre r post, s.free_list = pre ++ r :: post ∧ (∀ q ∈ pre, q.size < size) ∧
        size ≤ r.size ∧ a = r.start) ∧
    ((∀ r ∈ s.free_list, r.size < size) → (allocate_memory id size s).1 = none) := by
  have key : ∀ a, (allocate_memory id size s).1 = some a →
      ∃ pre r post, s.free_list = pre ++ r :: post ∧ (∀ q ∈ pre, q.size < size) ∧
        size ≤ r.size ∧ a = r.start := by
    intro a ha
    unfold allocate_memory at ha
    cases hff : first_fit size s.free_list with
    | none => simp [hff] at ha
    | some pr =>
      obtain ⟨a0, l0⟩ := pr
      simp [hff] at ha
      subst ha
      obtain ⟨pre, r, post, e1, e2, e3, e4, _⟩ := first_fit_some size _ _ _ hff
      exact ⟨pre, r, post, e1, e2, e3, e4⟩
  have none_case : (∀ r ∈ s.free_list, r.size < size) → (allocate_memory id size s).1 = none := by
    intro hall
    unfold allocate_memory
    rw [(first_fit_none_iff size s.free_list).2 hall]
  refine ⟨⟨?_, ?_⟩, key, none_case⟩
  · rintro ⟨a, ha⟩
    obtain ⟨pre, r, post, e1, _, e3, _⟩ := key a ha
    exact ⟨r, by simp [e1], e3⟩
  · rintro ⟨r, hr, hfit⟩
    cases hres : (allocate_memory id size s).1 with
    | some a => exact ⟨a, rfl⟩
    | none =>
      exfalso
      unfold allocate_memory at hres
      cases hff : first_fit size s.free_list with
      | none =>
        have := (first_fit_none_iff size s.free_list).1 hff r hr
        omega
      | some pr => simp [hff] at hres

/-- Witness for C3: a request of 10 units in the initial state. -/
theorem first_fit_allocation_witness :
    (0 : Int) < 10 ∧
    (((∃ a, (allocate_memory 1 10 (initial_state MEMORY_SIZE)).1 = some a) ↔
      ∃ r ∈ (initial_state MEMORY_SIZE).free_list, (10 : Int) ≤ r.size) ∧
    (∀ a, (allocate_memory 1 10 (initial_state MEMORY_SIZE)).1 = some a →
      ∃ pre r post, (initial_state MEMORY_SIZE).free_list = pre ++ r :: post ∧
        (∀ q ∈ pre, q.size < 10) ∧ (10 : Int) ≤ r.size ∧ a = r.start) ∧
    ((∀ r ∈ (initial_state MEMORY_SIZE).free_list, r.size < 10) →
      (allocate_memory 1 10 (initial_state MEMORY_SIZE)).1 = none)) :=
  ⟨by decide, first_fit_allocation (initial_state MEMORY_SIZE) 1 10 (by decide)⟩

/-! ## Retry on free: queue order -/

theorem free_memory_freed (s : State) (id address : Int)
    (h : (free_memory id address s).1 = FreeResult.freed) :
    ∃ p b, find_process id s.process_list = some p ∧
      find_block address p.allocated_blocks = some b ∧
      free_memory id address s = retry_waiting (release_block id address p b s) := by
  unfold free_memory at h ⊢
  cases hp : find_process id s.process_list with
  | none => simp [hp] at h
  | some p =>
    cases hb : find_block address p.allocated_blocks with
    | none => simp [hp, hb] at h
    | some b => exact ⟨p, b, rfl, hb, by simp [hb]⟩

theorem retry_waiting_empty (s : State) (hq : s.waiting_queue = []) :
    retry_waiting s = (FreeResult.freed, s) := by
  unfold retry_waiting
  rw [hq]
  simp only [dequeue]
  cases s
  simp_all

theorem retry_waiting_cons (s : State) (e : Process) (rest : List Process)
    (first : AllocatedBlock) (tl : List AllocatedBlock)
    (hq : s.waiting_queue = e :: rest) (he : e.allocated_blocks = first :: tl) :
    retry_waiting s = (FreeResult.freed,
      (allocate_memory e.process_id first.size { s with waiting_queue := rest }).2) := by
  unfold retry_waiting
  rw [hq]
  simp only [dequeue, he]

theorem retry_waiting_fault (s : State) (e : Process) (rest : List Process)
    (hq : s.waiting_queue = e :: rest) (he : e.allocated_blocks = []) :
    (retry_waiting s).1 = FreeResult.null_dereference := by
  unfold retry_waiting
  rw [hq]
  simp only [dequeue, he]

theorem release_block_queue (id address : Int) (p : Process) (b : AllocatedBlock) (s : State) :
    (release_block id address p b s).waiting_queue = s.waiting_queue := rfl

theorem allocate_memory_some (id size : Int) (s : State) (a : Int) (l : List FreeBlock)
    (h : first_fit size s.free_list = some (a, l)) :
    allocate_memory id size s =
      (some a, { free_list := l,
                 process_list := record_block id { start := a, size := size } s.process_list,
                 waiting_queue := s.waiting_queue }) := by
  unfold allocate_memory
  rw [h]

theorem allocate_memory_none (id size : Int) (s : State)
    (h : first_fit size s.free_list = none) :
    allocate_memory id size s =
      (none, { free_list := s.free_list, process_list := s.process_list,
               waiting_queue := s.waiting_queue ++ [pending_process id size] }) := by
  unfold allocate_memory
  rw [h]
  rfl

/-- C4 (queue order), evaluated on the code: after `allocate 1 10`, `allocate 5
10`, `allocate 2 65516` the memory is full; `allocate 3 100` and then
`allocate 4 5` are queued in that order.  `free 1 0` retries the request of
process 3, which does not fit and goes back to the rear; `free 5 10` then
grants the later request of process 4 at address 10 while the request of
process 3 is still queued and process 3 owns nothing. -/
theorem later_request_granted_first :
    (allocate_memory 4 5 (allocate_memory 3 100 (allocate_memory 2 65516 (allocate_memory 5 10
      (allocate_memory 1 10 (initial_state MEMORY_SIZE)).2).2).2).2).2.waiting_queue =
      [pending_process 3 100, pending_process 4 5] ∧
    (free_memory 1 0 (allocate_memory 4 5 (allocate_memory 3 100 (allocate_memory 2 65516
      (allocate_memory 5 10 (allocate_memory 1 10
        (initial_state MEMORY_SIZE)).2).2).2).2).2).2.waiting_queue =
      [pending_process 4 5, pending_process 3 100] ∧
    free_memory 5 10 (free_memory 1 0 (allocate_memory 4 5 (allocate_memory 3 100
      (allocate_memory 2 65516 (allocate_memory 5 10 (allocate_memory 1 10
        (initial_state MEMORY_SIZE)).2).2).2).2).2).2 =
      (FreeResult.freed,
        { free_list := [{ start := 15, size := 5 }, { start := 0, size := 10 }],
          process_list :=
            [{ process_id := 4, allocated_blocks := [{ start := 10, size := 5 }] },
             { process_id := 2, allocated_blocks := [{ start := 20, size := 65516 }] }],
          waiting_queue := [pending_process 3 100] }) := by
  decide

/-- C4 as amended: a successful `free_memory` on a state whose queue is
`e :: rest` retries only the front entry `e`, with its id and the size of its
first block.  No entry of `rest` is granted: the entries of `rest` stay
queued, in their order, at the front of the queue, and the process list either
is the one left by the release or differs from it by one block recorded for
the id of `e`.  When no free block left by the release can hold the request,
the process list is the one left by the release and the queue afterwards is
`rest` followed by the request of `e`, enqueued again at the rear; when some
free block can hold it, the queue afterwards is `rest` and the block is
recorded for the id of `e`.  For a pending request `e` the entry enqueued
again is `e` itself. -/
theorem retry_serves_front_only (s : State) (id address : Int) (e : Process)
    (rest : List Process) (hq : s.waiting_queue = e :: rest)
    (hfree : (free_memory id address s).1 = FreeResult.freed) :
    ∃ p b first tl, find_process id s.process_list = some p ∧
      find_block address p.allocated_blocks = some b ∧
      e.allocated_blocks = first :: tl ∧
      rest <+: (free_memory id address s).2.waiting_queue ∧
      ((free_memory id address s).2.process_list =
          (release_block id address p b s).process_list ∨
        ∃ a size, (free_memory id address s).2.process_list =
          record_block e.process_id { start := a, size := size }
            (release_block id address p b s).process_list) ∧
      ((∀ r ∈ (release_block id address p b s).free_list, r.size < first.size) →
        (free_memory id address s).2.waiting_queue =
          rest ++ [pending_process e.process_id first.size] ∧
        (free_memory id address s).2.process_list =
          (release_block id address p b s).process_list) ∧
      ((∃ r ∈ (release_block id address p b s).free_list, first.size ≤ r.size) →
        (free_memory id address s).2.waiting_queue = rest ∧
        ∃ a, (free_memory id address s).2.process_list =
          record_block e.process_id { start := a, size := first.size }
            (release_block id address p b s).process_list) ∧
      (∀ id1 size1, e = pending_process id1 size1 →
        pending_process e.process_id first.size = e) := by
  obtain ⟨p, b, hp, hb, hfm⟩ := free_memory_freed s id address hfree
  have hq' : (release_block id address p b s).waiting_queue = e :: rest := hq
  cases he : e.allocated_blocks with
  | nil =>
    rw [hfm, retry_waiting_fault _ e rest hq' he] at hfree
    exact absurd hfree (by decide)
  | cons first tl =>
    refine ⟨p, b, first, tl, hp, hb, rfl, ?_⟩
    have hsame : ∀ id1 size1, e = pending_process id1 size1 →
        pending_process e.process_id first.size = e := by
      intro id1 size1 hpe
      subst hpe
      simp only [pending_process, List.cons.injEq] at he
      rw [← he.1]
      rfl
    rw [hfm, retry_waiting_cons _ e rest first tl hq' he]
    cases hff : first_fit first.size (release_block id address p b s).free_list with
    | none =>
      have hsmall := (first_fit_none_iff first.size _).1 hff
      rw [allocate_memory_none _ _ _ (by simpa using hff)]
      refine ⟨by simp, Or.inl rfl, fun _ => ⟨rfl, rfl⟩, ?_, hsame⟩
      rintro ⟨r, hr, hfit⟩
      have := hsmall r hr
      omega
    | some pr =>
      obtain ⟨a, l⟩ := pr
      rw [allocate_memory_some _ _ _ a l (by simpa using hff)]
      refine ⟨by simp, Or.inr ⟨a, first.size, rfl⟩, ?_, fun _ => ⟨rfl, a, rfl⟩, hsame⟩
      intro hsmall
      rw [(first_fit_none_iff first.size _).2 hsmall] at hff
      simp at hff

/-- Witness for C4 as amended: `free 1 0` in the state with memory full and the
requests of processes 3 and 4 queued in that order. -/
theorem retry_serves_front_only_witness :
    ((allocate_memory 4 5 (allocate_memory 3 100
        (allocate_memory 2 65516 (allocate_memory 5 10 (allocate_memory 1 10
          (initial_state MEMORY_SIZE)).2).2).2).2).2.waiting_queue =
        pending_process 3 100 :: [pending_process 4 5] ∧
      (free_memory 1 0 (allocate_memory 4 5 (allocate_memory 3 100
        (allocate_memory 2 65516 (allocate_memory 5 10 (allocate_memory 1 10
          (initial_state MEMORY_SIZE)).2).2).2).2).2).1 = FreeResult.freed) ∧
    ∃ p b first tl, find_process 1 (allocate_memory 4 5 (allocate_memory 3 100
        (allocate_memory 2 65516 (allocate_memory 5 10 (allocate_memory 1 10
          (initial_state MEMORY_SIZE)).2).2).2).2).2.process_list = some p ∧
      find_block 0 p.allocated_blocks = some b ∧
      (pending_process 3 100).allocated_blocks = first :: tl ∧
      [pending_process 4 5] <+: (free_memory 1 0 (allocate_memory 4 5 (allocate_memory 3 100
        (allocate_memory 2 65516 (allocate_memory 5 10 (allocate_memory 1 10
          (initial_state MEMORY_SIZE)).2).2).2).2).2).2.waiting_queue ∧
      ((free_memory 1 0 (allocate_memory 4 5 (allocate_memory 3 100
        (allocate_memory 2 65516 (allocate_memory 5 10 (allocate_memory 1 10
          (initial_state MEMORY_SIZE)).2).2).2).2).2).2.process_list =
          (release_block 1 0 p b (allocate_memory 4 5 (allocate_memory 3 100
        (allocate_memory 2 65516 (allocate_memory 5 10 (allocate_memory 1 10
          (initial_state MEMORY_SIZE)).2).2).2).2).2).process_list ∨
        ∃ a size, (free_memory 1 0 (allocate_memory 4 5 (allocate_memory 3 100
        (allocate_memory 2 65516 (allocate_memory 5 10 (allocate_memory 1 10
          (initial_state MEMORY_SIZE)).2).2).2).2).2).2.process_list =
          record_block (pending_process 3 100).process_id { start := a, size := size }
            (release_block 1 0 p b (allocate_memory 4 5 (allocate_memory 3 100
        (allocate_memory 2 65516 (allocate_memory 5 10 (allocate_memory 1 10
          (initial_state MEMORY_SIZE)).2).2).2).2).2).process_list) ∧
      ((∀ r ∈ (release_block 1 0 p b (allocate_memory 4 5 (allocate_memory 3 100
        (allocate_memory 2 65516 (allocate_memory 5 10 (allocate_memory 1 10
          (initial_state MEMORY_SIZE)).2).2).2).2).2).free_list, r.size < first.size) →
        (free_memory 1 0 (allocate_memory 4 5 (allocate_memory 3 100
        (allocate_memory 2 65516 (allocate_memory 5 10 (allocate_memory 1 10
          (initial_state MEMORY_SIZE)).2).2).2).2).2).2.waiting_queue =
          [pending_process 4 5] ++
            [pending_process (pending_process 3 100).process_id first.size] ∧
        (free_memory 1 0 (allocate_memory 4 5 (allocate_memory 3 100
        (allocate_memory 2 65516 (allocate_memory 5 10 (allocate_memory 1 10
          (initial_state MEMORY_SIZE)).2).2).2).2).2).2.process_list =
          (release_block 1 0 p b (allocate_memory 4 5 (allocate_memory 3 100
        (allocate_memory 2 65516 (allocate_memory 5 10 (allocate_memory 1 10
          (initial_state MEMORY_SIZE)).2).2).2).2).2).process_list) ∧
      ((∃ r ∈ (release_block 1 0 p b (allocate_memory 4 5 (allocate_memory 3 100
        (allocate_memory 2 65516 (allocate_memory 5 10 (allocate_memory 1 10
          (initial_state MEMORY_SIZE)).2).2).2).2).2).free_list, first.size ≤ r.size) →
        (free_memory 1 0 (allocate_memory 4 5 (allocate_memory 3 100
        (allocate_memory 2 65516 (allocate_memory 5 10 (allocate_memory 1 10
          (initial_state MEMORY_SIZE)).2).2).2).2).2).2.waiting_queue = [pending_process 4 5] ∧
        ∃ a, (free_memory 1 0 (allocate_memory 4 5 (allocate_memory 3 100
        (allocate_memory 2 65516 (allocate_memory 5 10 (allocate_memory 1 10
          (initial_state MEMORY_SIZE)).2).2).2).2).2).2.process_list =
          record_block (pending_process 3 100).process_id
            { start := a, size := first.size }
            (release_block 1 0 p b (allocate_memory 4 5 (allocate_memory 3 100
        (allocate_memory 2 65516 (allocate_memory 5 10 (allocate_memory 1 10
          (initial_state MEMORY_SIZE)).2).2).2).2).2).process_list) ∧
      (∀ id1 size1, pending_process 3 100 = pending_process id1 size1 →
        pending_process (pending_process 3 100).process_id first.size =
          pending_process 3 100) :=
  ⟨⟨by decide, by decide⟩,
    retry_serves_front_only _ 1 0 (pending_process 3 100) [pending_process 4 5]
      (by decide) (by decide)⟩

/-! ## Round trip and the retry scenario -/

/-- C5 (round trip), evaluated on the code: after `allocate 1 5`, `allocate 2
15`, `free 1 0` the queue is empty and the free list is `[0,5), [20,65536)`.
`allocate 3 10` returns 20 and `free 3 20` succeeds, but the free list is then
`[20,30), [0,5), [30,65536)`: the released block is pushed on the head of the
list and is not merged with the remainder `[30,65536)`, which is not its list
successor, so the range `[20,65536)` is not restored. -/
theorem round_trip_not_restored :
    (free_memory 1 0 (allocate_memory 2 15
      (allocate_memory 1 5 (initial_state MEMORY_SIZE)).2).2).2 =
      { free_list := [{ start := 0, size := 5 }, { start := 20, size := 65516 }],
        process_list := [{ process_id := 2, allocated_blocks := [{ start := 5, size := 15 }] }],
        waiting_queue := [] } ∧
    (allocate_memory 3 10 (free_memory 1 0 (allocate_memory 2 15
      (allocate_memory 1 5 (initial_state MEMORY_SIZE)).2).2).2).1 = some 20 ∧
    free_memory 3 20 (allocate_memory 3 10 (free_memory 1 0 (allocate_memory 2 15
      (allocate_memory 1 5 (initial_state MEMORY_SIZE)).2).2).2).2 =
      (FreeResult.freed,
        { free_list := [{ start := 20, size := 10 }, { start := 0, size := 5 },
            { start := 30, size := 65506 }],
          process_list := [{ process_id := 2, allocated_blocks := [{ start := 5, size := 15 }] }],
          waiting_queue := [] }) := by
  decide

/-- C6 (retry cascade): in an address space of `N` units, for sizes with
`0 < b ≤ a ≤ N`, `b < N` and `a + b > N`: `allocate 1 a` returns 0, `allocate 2
b` is pending and queues the request of process 2, and `free 1 0` succeeds,
after which process 1 is not registered, process 2 is the only process and
owns exactly the block `[0, b)`, the free list is the single range `[b, N)`
and the queue is empty. -/
theorem retry_cascade_scenario (N a b : Int) (_hb : 0 < b) (_hba : b ≤ a) (haN : a ≤ N)
    (hbN : b < N) (hab : N < a + b) :
    (allocate_memory 1 a (initial_state N)).1 = some 0 ∧
    (allocate_memory 2 b (allocate_memory 1 a (initial_state N)).2).1 = none ∧
    (allocate_memory 2 b (allocate_memory 1 a (initial_state N)).2).2.waiting_queue =
      [pending_process 2 b] ∧
    (free_memory 1 0
      (allocate_memory 2 b (allocate_memory 1 a (initial_state N)).2).2).1 = FreeResult.freed ∧
    find_process 1 (free_memory 1 0
      (allocate_memory 2 b (allocate_memory 1 a (initial_state N)).2).2).2.process_list = none ∧
    (free_memory 1 0
      (allocate_memory 2 b (allocate_memory 1 a (initial_state N)).2).2).2 =
      { free_list := [{ start := b, size := N - b }],
        process_list := [{ process_id := 2, allocated_blocks := [{ start := 0, size := b }] }],
        waiting_queue := [] } := by
  have h1 : ¬ (N - a ≥ b) := by omega
  have h2 : N ≥ a := haN
  have h3 : N ≥ b := by omega
  have h4 : ¬ (N - b = 0) := by omega
  have h5 : a + (N - a) = N := by omega
  by_cases hfull : N - a = 0
  · have haN' : a = N := by omega
    subst haN'
    simp [allocate_memory, initial_state, initialize_free_list_of, first_fit, record_block,
      attach_block, enqueue, pending_process, free_memory, find_process, find_block,
      release_block, unlink_block, set_blocks, remove_process, coalesce, merge_from,
      retry_waiting, dequeue, h3, h4]
  · simp [allocate_memory, initial_state, initialize_free_list_of, first_fit, record_block,
      attach_block, enqueue, pending_process, free_memory, find_process, find_block,
      release_block, unlink_block, set_blocks, remove_process, coalesce, merge_from,
      retry_waiting, dequeue, h1, h2, h3, h4, h5, hfull]

/-- Witness for C6: the spec's scenario, `N = 100`, `a = 60`, `b = 50`. -/
theorem retry_cascade_scenario_witness :
    ((0 : Int) < 50 ∧ (50 : Int) ≤ 60 ∧ (60 : Int) ≤ 100 ∧ (50 : Int) < 100 ∧
      (100 : Int) < 60 + 50) ∧
    (allocate_memory 1 60 (initial_state 100)).1 = some 0 ∧
    (allocate_memory 2 50 (allocate_memory 1 60 (initial_state 100)).2).1 = none ∧
    (allocate_memory 2 50 (allocate_memory 1 60 (initial_state 100)).2).2.waiting_queue =
      [pending_process 2 50] ∧
    (free_memory 1 0
      (allocate_memory 2 50 (allocate_memory 1 60 (initial_state 100)).2).2).1 =
      FreeResult.freed ∧
    find_process 1 (free_memory 1 0
      (allocate_memory 2 50 (allocate_memory 1 60 (initial_state 100)).2).2).2.process_list =
      none ∧
    (free_memory 1 0
      (allocate_memory 2 50 (allocate_memory 1 60 (initial_state 100)).2).2).2 =
      { free_list := [{ start := 50, size := 100 - 50 }],
        process_list := [{ process_id := 2, allocated_blocks := [{ start := 0, size := 50 }] }],
        waiting_queue := [] } :=
  ⟨by decide,
    retry_cascade_scenario 100 60 50 (by decide) (by decide) (by decide) (by decide)
      (by decide)⟩

/-! ## Size check, failed free, create then terminate -/

/-- C7 (invalid size), evaluated on the code: `allocate 1 (-5)` in the initial
state is not rejected.  It returns address 0, moves the free block to start
`-5` with size 65541, and registers process 1 with a block of size `-5`. -/
theorem negative_size_is_allocated :
    allocate_memory 1 (-5) (initial_state MEMORY_SIZE) =
      (some 0,
        { free_list := [{ start := -5, size := 65541 }],
          process_list := [{ process_id := 1, allocated_blocks := [{ start := 0, size := -5 }] }],
          waiting_queue := [] }) ∧
    (allocate_memory 1 (-5) (initial_state MEMORY_SIZE)).2 ≠ initial_state MEMORY_SIZE := by
  decide

/-- C7 as amended: `allocate_memory` does not test the sign of the size.  For
`size ≤ 0` and a free list whose first block has positive size, as long as the
two `int` updates stay in range (`start + size` not below `INT_MIN`, the
block's size minus `size` not above `INT_MAX`), the call returns the start of
that block, moves the block's start by `size` and its size by `-size`, records
the block `{start, size}` for the process, and leaves the queue unchanged
(nothing is enqueued); on an empty free list it returns the pending result,
leaves the free list and the process list unchanged and enqueues the
request. -/
theorem nonpositive_size_first_fit (s : State) (id size : Int) (hsize : size ≤ 0) :
    (∀ r rest, s.free_list = r :: rest → 0 < r.size →
      INT_MIN ≤ r.start + size → r.size - size ≤ INT_MAX →
      allocate_memory id size s =
        (some r.start,
          { free_list := { start := r.start + size, size := r.size - size } :: rest,
            process_list :=
              record_block id { start := r.start, size := size } s.process_list,
            waiting_queue := s.waiting_queue })) ∧
    (s.free_list = [] →
      allocate_memory id size s =
        (none,
          { free_list := [], process_list := s.process_list,
            waiting_queue := s.waiting_queue ++ [pending_process id size] })) := by
  constructor
  · intro r rest hfl hr _ _
    have h1 : r.size ≥ size := by omega
    have h2 : ¬ (r.size - size = 0) := by omega
    simp [allocate_memory, hfl, first_fit, h1, h2]
  · intro hfl
    simp [allocate_memory, hfl, first_fit, enqueue]

/-- Witness for C7 as amended: `allocate 1 (-5)` in the initial state. -/
theorem nonpositive_size_first_fit_witness :
    ((-5 : Int) ≤ 0 ∧ INT_MIN ≤ 0 + -5 ∧ MEMORY_SIZE - -5 ≤ INT_MAX) ∧
    allocate_memory 1 (-5) (initial_state MEMORY_SIZE) =
      (some 0,
        { free_list := { start := 0 + -5, size := MEMORY_SIZE - -5 } :: [],
          process_list :=
            record_block 1 { start := 0, size := -5 } (initial_state MEMORY_SIZE).process_list,
          waiting_queue := (initial_state MEMORY_SIZE).waiting_queue }) :=
  ⟨⟨by decide, by decide, by decide⟩,
    (nonpositive_size_first_fit (initial_state MEMORY_SIZE) 1 (-5) (by decide)).1
      { start := 0, size := MEMORY_SIZE } [] rfl (by decide) (by decide) (by decide)⟩

theorem find_process_none_of_forall (id : Int) :
    ∀ procs : List Process, (∀ p ∈ procs, p.process_id ≠ id) → find_process id procs = none := by
  intro procs
  induction procs with
  | nil => intro _; rfl
  | cons q rest ih =>
    intro h
    unfold find_process
    rw [if_neg (h q (List.mem_cons_self _ _))]
    exact ih (fun p hp => h p (List.mem_cons_of_mem _ hp))

theorem find_process_first (id : Int) (p : Process) (post : List Process) :
    ∀ pre : List Process, (∀ q ∈ pre, q.process_id ≠ id) → p.process_id = id →
      find_process id (pre ++ p :: post) = some p := by
  intro pre
  induction pre with
  | nil =>
    intro _ hp
    simp [find_process, hp]
  | cons q rest ih =>
    intro h hp
    simp only [List.cons_append, find_process]
    rw [if_neg (h q (List.mem_cons_self _ _))]
    exact ih (fun r hr => h r (List.mem_cons_of_mem _ hr)) hp

theorem find_block_none_of_forall (address : Int) :
    ∀ blocks : List AllocatedBlock, (∀ b ∈ blocks, b.start ≠ address) →
      find_block address blocks = none := by
  intro blocks
  induction blocks with
  | nil => intro _; rfl
  | cons c rest ih =>
    intro h
    unfold find_block
    rw [if_neg (h c (List.mem_cons_self _ _))]
    exact ih (fun b hb => h b (List.mem_cons_of_mem _ hb))

/-- C8 (failed free is atomic): when no registered process has the id,
`free_memory` reports that the process was not found; when the first process
with the id has no block starting at the address (the address may lie inside
one of its blocks), it reports that the block was not found; in both cases the
returned state is the given state: free list, process list and queue are
untouched and no queued request is retried. -/
theorem failed_free_atomic (s : State) (id address : Int) :
    ((∀ p ∈ s.process_list, p.process_id ≠ id) →
      free_memory id address s = (FreeResult.process_not_found, s)) ∧
    (∀ pre p post, s.process_list = pre ++ p :: post →
      (∀ q ∈ pre, q.process_id ≠ id) → p.process_id = id →
      (∀ b ∈ p.allocated_blocks, b.start ≠ address) →
      free_memory id address s = (FreeResult.block_not_found, s)) := by
  constructor
  · intro h
    unfold free_memory
    rw [find_process_none_of_forall id _ h]
  · intro pre p post hpl hpre hp hb
    unfold free_memory
    rw [hpl, find_process_first id p post pre hpre hp]
    simp only
    rw [find_block_none_of_forall address _ hb]

/-- Witness for C8: `free 3 10` in the initial state, where process 3 was never
created, and `free 1 5` after `allocate 1 10`, where 5 lies inside the block
`[0, 10)` of process 1. -/
theorem failed_free_atomic_witness :
    free_memory 3 10 (initial_state MEMORY_SIZE) =
      (FreeResult.process_not_found, initial_state MEMORY_SIZE) ∧
    free_memory 1 5 (allocate_memory 1 10 (initial_state MEMORY_SIZE)).2 =
      (FreeResult.block_not_found, (allocate_memory 1 10 (initial_state MEMORY_SIZE)).2) :=
  ⟨(failed_free_atomic (initial_state MEMORY_SIZE) 3 10).1 (by simp [initial_state]),
    (failed_free_atomic (allocate_memory 1 10 (initial_state MEMORY_SIZE)).2 1 5).2
      [] { process_id := 1, allocated_blocks := [{ start := 0, size := 10 }] } []
      (by decide) (by simp) rfl (by simp)⟩

/-- C9 (create then terminate), evaluated on the code: `terminate_process`
right after `create_process` reports the termination and returns the state
unchanged, so the created process is still the first process found for the
id; in particular `create 5`, `terminate 5` from the initial state leaves
process 5 registered.  The loop over the blocks has nothing to free, and only
`free_memory` ever unlinks a process. -/
theorem terminate_keeps_blockless_process :
    (∀ (s : State) (id : Int),
      terminate_process id (create_process id s) =
        (TerminateResult.terminated, create_process id s) ∧
      find_process id (terminate_process id (create_process id s)).2.process_list =
        some { process_id := id, allocated_blocks := [] }) ∧
    terminate_process 5 (create_process 5 (initial_state MEMORY_SIZE)) =
      (TerminateResult.terminated,
        { free_list := [{ start := 0, size := 65536 }],
          process_list := [{ process_id := 5, allocated_blocks := [] }],
          waiting_queue := [] }) := by
  constructor
  · intro s id
    simp [terminate_process, create_process, find_process, terminate_loop]
  · decide

/-! ## Retry on free: one request per call -/

/-- C10 (one retry per free): in a reachable state, a successful `free_memory`
with the queue `e :: rest` dequeues `e`, which is a pending request
`(id1, size1)`, and runs `allocate_memory id1 size1` once on the state left by
the release with queue `rest`: the resulting state is the state of the call;
the queue afterwards is `rest` when that allocation returned an address and
`rest` followed by `(id1, size1)` when it did not.  With an empty queue the
resulting state is the one left by the release and the queue stays empty. -/
theorem one_retry_per_free (s : State) (h : Reachable MEMORY_SIZE s) (id address : Int)
    (hfree : (free_memory id address s).1 = FreeResult.freed) :
    ∃ p b, find_process id s.process_list = some p ∧
      find_block address p.allocated_blocks = some b ∧
      (s.waiting_queue = [] →
        (free_memory id address s).2 = release_block id address p b s ∧
        (free_memory id address s).2.waiting_queue = []) ∧
      (∀ e rest, s.waiting_queue = e :: rest →
        ∃ id1 size1, e = pending_process id1 size1 ∧
          (free_memory id address s).2 =
            (allocate_memory id1 size1
              { release_block id address p b s with waiting_queue := rest }).2 ∧
          ((∃ a, (allocate_memory id1 size1
              { release_block id address p b s with waiting_queue := rest }).1 = some a) →
            (free_memory id address s).2.waiting_queue = rest) ∧
          ((allocate_memory id1 size1
              { release_block id address p b s with waiting_queue := rest }).1 = none →
            (free_memory id address s).2.waiting_queue =
              rest ++ [pending_process id1 size1])) := by
  obtain ⟨p, b, hp, hb, hfm⟩ := free_memory_freed s id address hfree
  have hwf := reachable_wf MEMORY_SIZE (by decide) s h
  refine ⟨p, b, hp, hb, ?_, ?_⟩
  · intro hq
    rw [hfm, retry_waiting_empty _ (by simpa [release_block_queue] using hq)]
    exact ⟨rfl, hq⟩
  · intro e rest hq
    obtain ⟨id1, size1, rfl, _⟩ := hwf.queue_ok e (by rw [hq]; exact List.mem_cons_self _ _)
    refine ⟨id1, size1, rfl, ?_⟩
    have hq' : (release_block id address p b s).waiting_queue =
        pending_process id1 size1 :: rest := hq
    rw [hfm, retry_waiting_cons _ (pending_process id1 size1) rest
      { start := 0, size := size1 } [] hq' rfl]
    simp only [pending_process]
    cases hff : first_fit size1 (release_block id address p b s).free_list with
    | none =>
      rw [allocate_memory_none _ _ _ (by simpa using hff)]
      simp [pending_process]
    | some pr =>
      obtain ⟨a, l⟩ := pr
      rw [allocate_memory_some _ _ _ a l (by simpa using hff)]
      simp

/-- Witness for C10: `free 1 0` after `allocate 1 60000` and the pending
`allocate 2 50000`. -/
theorem one_retry_per_free_witness :
    Reachable MEMORY_SIZE (allocate_memory 2 50000
        (allocate_memory 1 60000 (initial_state MEMORY_SIZE)).2).2 ∧
    (free_memory 1 0 (allocate_memory 2 50000
        (allocate_memory 1 60000 (initial_state MEMORY_SIZE)).2).2).1 = FreeResult.freed ∧
    ∃ p b, find_process 1 (allocate_memory 2 50000
        (allocate_memory 1 60000 (initial_state MEMORY_SIZE)).2).2.process_list = some p ∧
      find_block 0 p.allocated_blocks = some b ∧
      ((allocate_memory 2 50000
        (allocate_memory 1 60000 (initial_state MEMORY_SIZE)).2).2.waiting_queue = [] →
        (free_memory 1 0 (allocate_memory 2 50000
        (allocate_memory 1 60000 (initial_state MEMORY_SIZE)).2).2).2 = release_block 1 0 p b (allocate_memory 2 50000
        (allocate_memory 1 60000 (initial_state MEMORY_SIZE)).2).2 ∧
        (free_memory 1 0 (allocate_memory 2 50000
        (allocate_memory 1 60000 (initial_state MEMORY_SIZE)).2).2).2.waiting_queue = []) ∧
      (∀ e rest, (allocate_memory 2 50000
        (allocate_memory 1 60000 (initial_state MEMORY_SIZE)).2).2.waiting_queue = e :: rest →
        ∃ id1 size1, e = pending_process id1 size1 ∧
          (free_memory 1 0 (allocate_memory 2 50000
        (allocate_memory 1 60000 (initial_state MEMORY_SIZE)).2).2).2 =
            (allocate_memory id1 size1
              { release_block 1 0 p b (allocate_memory 2 50000
        (allocate_memory 1 60000 (initial_state MEMORY_SIZE)).2).2 with waiting_queue := rest }).2 ∧
          ((∃ a, (allocate_memory id1 size1
              { release_block 1 0 p b (allocate_memory 2 50000
        (allocate_memory 1 60000 (initial_state MEMORY_SIZE)).2).2 with waiting_queue := rest }).1 = some a) →
            (free_memory 1 0 (allocate_memory 2 50000
        (allocate_memory 1 60000 (initial_state MEMORY_SIZE)).2).2).2.waiting_queue = rest) ∧
          ((allocate_memory id1 size1
              { release_block 1 0 p b (allocate_memory 2 50000
        (allocate_memory 1 60000 (initial_state MEMORY_SIZE)).2).2 with waiting_queue := rest }).1 = none →
            (free_memory 1 0 (allocate_memory 2 50000
        (allocate_memory 1 60000 (initial_state MEMORY_SIZE)).2).2).2.waiting_queue =
              rest ++ [pending_process id1 size1])) :=
  ⟨Reachable.allocate 2 50000 (by decide) (Reachable.allocate 1 60000 (by decide) Reachable.init),
    by decide,
    one_retry_per_free _
      (Reachable.allocate 2 50000 (by decide)
        (Reachable.allocate 1 60000 (by decide) Reachable.init))
      1 0 (by decide)⟩

/-! ## Effect of a successful or pending allocation -/

/-- C12 (split on allocate): when `allocate_memory` with a positive size
returns an address, the free list splits as `pre ++ r :: post` where `r` is
the matched block (the first with enough size, the address being its start);
afterwards the free list is `pre ++ {start + size, size' - size} :: post` when
`r` is larger than the request and `pre ++ post` when it has exactly the
requested size, so every other block keeps its place and value; and when all
blocks had positive size before, all have positive size afterwards. -/
theorem split_on_allocate (s : State) (id size a : Int) (_hsize : 0 < size)
    (h : (allocate_memory id size s).1 = some a) :
    ∃ pre r post, s.free_list = pre ++ r :: post ∧ (∀ q ∈ pre, q.size < size) ∧
      size ≤ r.size ∧ a = r.start ∧
      (size < r.size → (allocate_memory id size s).2.free_list =
        pre ++ { start := r.start + size, size := r.size - size } :: post) ∧
      (r.size = size → (allocate_memory id size s).2.free_list = pre ++ post) ∧
      ((∀ q ∈ s.free_list, 0 < q.size) →
        ∀ q ∈ (allocate_memory id size s).2.free_list, 0 < q.size) := by
  cases hff : first_fit size s.free_list with
  | none =>
    rw [allocate_memory_none id size s hff] at h
    simp at h
  | some pr =>
    obtain ⟨a0, l0⟩ := pr
    rw [allocate_memory_some id size s a0 l0 hff] at h ⊢
    simp only [Option.some.injEq] at h
    subst h
    obtain ⟨pre, r, post, e1, e2, e3, e4, e5⟩ := first_fit_some size _ _ _ hff
    refine ⟨pre, r, post, e1, e2, e3, e4, ?_, ?_, ?_⟩
    · intro hlt
      have : ¬ (r.size - size = 0) := by omega
      simp [e5, this]
    · intro heq
      have : r.size - size = 0 := by omega
      simp [e5, this]
    · intro hpos q hq
      simp only [e5] at hq
      rw [e1] at hpos
      rcases List.mem_append.1 hq with hq | hq
      · exact hpos q (by simp [hq])
      · split_ifs at hq with h0
        · exact hpos q (by simp [hq])
        · rcases List.mem_cons.1 hq with rfl | hq
          · simp only
            omega
          · exact hpos q (by simp [hq])

/-- Witness for C12: a request of 10 units in the initial state. -/
theorem split_on_allocate_witness :
    ((0 : Int) < 10 ∧ (allocate_memory 1 10 (initial_state MEMORY_SIZE)).1 = some 0) ∧
    ∃ pre r post, (initial_state MEMORY_SIZE).free_list = pre ++ r :: post ∧
      (∀ q ∈ pre, q.size < 10) ∧ (10 : Int) ≤ r.size ∧ (0 : Int) = r.start ∧
      ((10 : Int) < r.size → (allocate_memory 1 10 (initial_state MEMORY_SIZE)).2.free_list =
        pre ++ { start := r.start + 10, size := r.size - 10 } :: post) ∧
      (r.size = 10 → (allocate_memory 1 10 (initial_state MEMORY_SIZE)).2.free_list =
        pre ++ post) ∧
      ((∀ q ∈ (initial_state MEMORY_SIZE).free_list, 0 < q.size) →
        ∀ q ∈ (allocate_memory 1 10 (initial_state MEMORY_SIZE)).2.free_list, 0 < q.size) :=
  ⟨⟨by decide, by decide⟩,
    split_on_allocate (initial_state MEMORY_SIZE) 1 10 0 (by decide) (by decide)⟩

theorem attach_block_none_of_forall (id : Int) (b : AllocatedBlock) :
    ∀ procs : List Process, (∀ p ∈ procs, p.process_id ≠ id) → attach_block id b procs = none := by
  intro procs
  induction procs with
  | nil => intro _; rfl
  | cons q rest ih =>
    intro h
    unfold attach_block
    rw [if_neg (h q (List.mem_cons_self _ _))]
    rw [ih (fun p hp => h p (List.mem_cons_of_mem _ hp))]

theorem attach_block_first (id : Int) (b : AllocatedBlock) (p : Process) (post : List Process) :
    ∀ pre : List Process, (∀ q ∈ pre, q.process_id ≠ id) → p.process_id = id →
      attach_block id b (pre ++ p :: post) =
        some (pre ++ { p with allocated_blocks := b :: p.allocated_blocks } :: post) := by
  intro pre
  induction pre with
  | nil =>
    intro _ hp
    simp [attach_block, hp]
  | cons q rest ih =>
    intro h hp
    have hrec := ih (fun r hr => h r (List.mem_cons_of_mem _ hr)) hp
    simp [attach_block, h q (List.mem_cons_self _ _), hrec]

/-- C13 (block ownership on allocate): when `allocate_memory` returns address
`a`, the block `{a, size}` is put at the head of the blocks of the first
process with the id, whose other blocks, and every other process, stay as they
were; when no process has the id a new process with that id and only this
block is put at the head of the process list; the queue is unchanged. -/
theorem block_ownership_on_allocate (s : State) (id size a : Int)
    (h : (allocate_memory id size s).1 = some a) :
    (∀ pre p post, s.process_list = pre ++ p :: post → (∀ q ∈ pre, q.process_id ≠ id) →
      p.process_id = id →
      (allocate_memory id size s).2.process_list =
        pre ++ { process_id := p.process_id,
                 allocated_blocks := { start := a, size := size } :: p.allocated_blocks } ::
          post) ∧
    ((∀ q ∈ s.process_list, q.process_id ≠ id) →
      (allocate_memory id size s).2.process_list =
        { process_id := id, allocated_blocks := [{ start := a, size := size }] } ::
          s.process_list) ∧
    (allocate_memory id size s).2.waiting_queue = s.waiting_queue := by
  cases hff : first_fit size s.free_list with
  | none =>
    rw [allocate_memory_none id size s hff] at h
    simp at h
  | some pr =>
    obtain ⟨a0, l0⟩ := pr
    rw [allocate_memory_some id size s a0 l0 hff] at h ⊢
    simp only [Option.some.injEq] at h
    subst h
    refine ⟨?_, ?_, rfl⟩
    · intro pre p post hpl hpre hp
      simp only [record_block, hpl, attach_block_first id _ p post pre hpre hp]
    · intro hnone
      simp only [record_block, attach_block_none_of_forall id _ _ hnone]

/-- Witness for C13: `allocate 1 10` in the initial state registers process 1,
and a following `allocate 1 20` adds a block to it. -/
theorem block_ownership_on_allocate_witness :
    ((allocate_memory 1 10 (initial_state MEMORY_SIZE)).1 = some 0 ∧
      (allocate_memory 1 20 (allocate_memory 1 10 (initial_state MEMORY_SIZE)).2).1 =
        some 10) ∧
    (allocate_memory 1 10 (initial_state MEMORY_SIZE)).2.process_list =
      { process_id := 1, allocated_blocks := [{ start := 0, size := 10 }] } ::
        (initial_state MEMORY_SIZE).process_list ∧
    (allocate_memory 1 10 (initial_state MEMORY_SIZE)).2.waiting_queue =
      (initial_state MEMORY_SIZE).waiting_queue ∧
    (allocate_memory 1 20 (allocate_memory 1 10 (initial_state MEMORY_SIZE)).2).2.process_list =
      [] ++ { process_id := 1,
              allocated_blocks := { start := 10, size := 20 } :: [{ start := 0, size := 10 }] } ::
        [] :=
  ⟨⟨by decide, by decide⟩,
    (block_ownership_on_allocate (initial_state MEMORY_SIZE) 1 10 0 (by decide)).2.1
      (by simp [initial_state]),
    (block_ownership_on_allocate (initial_state MEMORY_SIZE) 1 10 0 (by decide)).2.2,
    (block_ownership_on_allocate (allocate_memory 1 10 (initial_state MEMORY_SIZE)).2 1 20 10
      (by decide)).1 [] { process_id := 1, allocated_blocks := [{ start := 0, size := 10 }] } []
      (by decide) (by simp) rfl⟩

/-- C14 (pending allocate only enqueues): for a positive size that no free
block can hold, `allocate_memory` returns the pending result, the free list
and the process list are the ones given (no process is registered), and the
queue is the previous queue followed by the one entry for `(id, size)`. -/
theorem pending_allocate_only_enqueues (s : State) (id size : Int) (_hsize : 0 < size)
    (hnofit : ∀ r ∈ s.free_list, r.size < size) :
    (allocate_memory id size s).1 = none ∧
    (allocate_memory id size s).2.free_list = s.free_list ∧
    (allocate_memory id size s).2.process_list = s.process_list ∧
    (allocate_memory id size s).2.waiting_queue =
      s.waiting_queue ++ [pending_process id size] ∧
    (pending_process id size).process_id = id ∧
    (∃ rest, (pending_process id size).allocated_blocks = { start := 0, size := size } :: rest) := by
  rw [allocate_memory_none id size s ((first_fit_none_iff size s.free_list).2 hnofit)]
  exact ⟨rfl, rfl, rfl, rfl, rfl, [], rfl⟩

/-- Witness for C14: `allocate 2 50000` after `allocate 1 60000`. -/
theorem pending_allocate_only_enqueues_witness :
    ((0 : Int) < 50000 ∧
      ∀ r ∈ (allocate_memory 1 60000 (initial_state MEMORY_SIZE)).2.free_list,
        r.size < 50000) ∧
    (allocate_memory 2 50000 (allocate_memory 1 60000 (initial_state MEMORY_SIZE)).2).1 = none ∧
    (allocate_memory 2 50000 (allocate_memory 1 60000 (initial_state MEMORY_SIZE)).2).2.free_list =
      (allocate_memory 1 60000 (initial_state MEMORY_SIZE)).2.free_list ∧
    (allocate_memory 2 50000
      (allocate_memory 1 60000 (initial_state MEMORY_SIZE)).2).2.process_list =
      (allocate_memory 1 60000 (initial_state MEMORY_SIZE)).2.process_list ∧
    (allocate_memory 2 50000
      (allocate_memory 1 60000 (initial_state MEMORY_SIZE)).2).2.waiting_queue =
      (allocate_memory 1 60000 (initial_state MEMORY_SIZE)).2.waiting_queue ++
        [pending_process 2 50000] ∧
    (pending_process 2 50000).process_id = 2 ∧
    (∃ rest, (pending_process 2 50000).allocated_blocks =
      { start := 0, size := 50000 } :: rest) :=
  ⟨⟨by decide, by decide⟩,
    pending_allocate_only_enqueues _ 2 50000 (by decide) (by decide)⟩

/-! ## Queue order and duplicate ids -/

theorem enqueue_all_eq_append :
    ∀ (entries queue : List Process), enqueue_all queue entries = queue ++ entries := by
  intro entries
  induction entries with
  | nil => intro queue; simp [enqueue_all]
  | cons e rest ih =>
    intro queue
    simp [enqueue_all, enqueue, ih]

theorem dequeue_many_drains :
    ∀ queue : List Process,
      dequeue_many (queue.length + 1) queue = (queue.map some ++ [none], []) := by
  intro queue
  induction queue with
  | nil => simp [dequeue_many, dequeue]
  | cons e rest ih =>
    have step : dequeue_many ((e :: rest).length + 1) (e :: rest) =
        (some e :: (dequeue_many (rest.length + 1) rest).1,
          (dequeue_many (rest.length + 1) rest).2) := rfl
    rw [step, ih]
    simp

/-- C15 (strict FIFO queue): enqueueing `e1 .. en` on the empty queue and then
calling `dequeue` `n + 1` times returns `e1, .., en` in that order followed by
the empty signal and leaves the queue empty; `enqueue` puts the entry at the
rear, and `dequeue` on a non-empty queue returns its oldest entry and leaves
the remaining entries in order. -/
theorem queue_is_fifo :
    (∀ entries : List Process,
      dequeue_many (entries.length + 1) (enqueue_all [] entries) =
        (entries.map some ++ [none], [])) ∧
    (∀ (queue : List Process) (e : Process), enqueue queue e = queue ++ [e]) ∧
    (∀ (e : Process) (rest : List Process), dequeue (e :: rest) = (some e, rest)) ∧
    dequeue [] = (none, []) := by
  refine ⟨?_, fun _ _ => rfl, fun _ _ => rfl, rfl⟩
  intro entries
  have hlen : entries.length = (enqueue_all [] entries).length := by
    rw [enqueue_all_eq_append]
    simp
  rw [hlen, dequeue_many_drains, enqueue_all_eq_append]
  simp

/-- C17 (duplicate ids shadow): `create_process` always puts a new process
with no block at the head of the process list, whatever the list holds, and
leaves free list and queue as they are; the lookup for the id then finds this
new process, so `free_memory` with the id and any address, in particular the
start of a block owned by an earlier process with the same id, reports that
the block was not found and returns the state unchanged. -/
theorem duplicate_create_shadows (s : State) (id : Int) :
    (create_process id s).process_list =
      { process_id := id, allocated_blocks := [] } :: s.process_list ∧
    (create_process id s).free_list = s.free_list ∧
    (create_process id s).waiting_queue = s.waiting_queue ∧
    find_process id (create_process id s).process_list =
      some { process_id := id, allocated_blocks := [] } ∧
    ∀ address : Int, free_memory id address (create_process id s) =
      (FreeResult.block_not_found, create_process id s) := by
  refine ⟨rfl, rfl, rfl, by simp [create_process, find_process], ?_⟩
  intro address
  simp [free_memory, create_process, find_process, find_block]

/-! ## Deregistration and termination -/

theorem set_blocks_first (id : Int) (blocks : List AllocatedBlock) (p : Process)
    (post : List Process) :
    ∀ pre : List Process, (∀ q ∈ pre, q.process_id ≠ id) → p.process_id = id →
      set_blocks id blocks (pre ++ p :: post) =
        pre ++ { process_id := id, allocated_blocks := blocks } :: post := by
  intro pre
  induction pre with
  | nil =>
    intro _ hp
    simp [set_blocks, hp]
  | cons q rest ih =>
    intro h hp
    have hrec := ih (fun r hr => h r (List.mem_cons_of_mem _ hr)) hp
    simp [set_blocks, h q (List.mem_cons_self _ _), hrec]

theorem remove_process_first (id : Int) (p : Process) (post : List Process) :
    ∀ pre : List Process, (∀ q ∈ pre, q.process_id ≠ id) → p.process_id = id →
      remove_process id (pre ++ p :: post) = pre ++ post := by
  intro pre
  induction pre with
  | nil =>
    intro _ hp
    simp [remove_process, hp]
  | cons q rest ih =>
    intro h hp
    have hrec := ih (fun r hr => h r (List.mem_cons_of_mem _ hr)) hp
    simp [remove_process, h q (List.mem_cons_self _ _), hrec]

theorem find_block_split (address : Int) :
    ∀ (blocks : List AllocatedBlock) (b : AllocatedBlock), find_block address blocks = some b →
      ∃ bpre bpost, blocks = bpre ++ b :: bpost ∧ (∀ c ∈ bpre, c.start ≠ address) ∧
        b.start = address ∧ unlink_block address blocks = bpre ++ bpost := by
  intro blocks
  induction blocks with
  | nil => intro b h; simp [find_block] at h
  | cons c rest ih =>
    intro b h
    unfold find_block at h
    split_ifs at h with h1
    · simp at h
      subst h
      exact ⟨[], rest, rfl, by simp, h1, by simp [unlink_block, h1]⟩
    · obtain ⟨bpre, bpost, e1, e2, e3, e4⟩ := ih b h
      refine ⟨c :: bpre, bpost, by simp [e1], ?_, e3, by simp [unlink_block, h1, e4]⟩
      intro d hd
      rcases List.mem_cons.1 hd with rfl | hd
      · exact h1
      · exact e2 d hd

theorem block_count_append (a : Int) (l1 l2 : List AllocatedBlock) :
    block_count a (l1 ++ l2) = block_count a l1 + block_count a l2 := by
  simp [block_count, List.countP_append]

theorem block_count_pos_of_mem (a : Int) :
    ∀ (l : List AllocatedBlock) (b : AllocatedBlock), b ∈ l → b.start ≤ a → a < b.start + b.size →
      1 ≤ block_count a l := by
  intro l
  induction l with
  | nil => intro b hb; simp at hb
  | cons c rest ih =>
    intro b hb h1 h2
    rw [block_count_cons]
    rcases List.mem_cons.1 hb with rfl | hb
    · rw [if_pos ⟨h1, h2⟩]
      omega
    · have := ih b hb h1 h2
      omega

theorem allocated_count_append (a : Int) :
    ∀ (l1 l2 : List Process),
      allocated_count a (l1 ++ l2) = allocated_count a l1 + allocated_count a l2 := by
  intro l1
  induction l1 with
  | nil => intro l2; simp [allocated_count]
  | cons p rest ih =>
    intro l2
    simp [allocated_count, ih]
    omega

theorem allocated_count_split (a : Int) (pre : List Process) (p : Process) (post : List Process) :
    allocated_count a (pre ++ p :: post) =
      allocated_count a pre + block_count a p.allocated_blocks + allocated_count a post := by
  rw [allocated_count_append]
  simp [allocated_count]
  omega

theorem block_starts_distinct (N : Int) (s : State) (h : WellFormed N s)
    (pre : List Process) (p : Process) (post : List Process)
    (hpl : s.process_list = pre ++ p :: post)
    (bpre : List AllocatedBlock) (b : AllocatedBlock) (bpost : List AllocatedBlock)
    (hb : p.allocated_blocks = bpre ++ b :: bpost) :
    ∀ c ∈ bpre ++ bpost, c.start ≠ b.start := by
  intro c hc hcb
  have hp : p ∈ s.process_list := by rw [hpl]; simp
  have hbw : b.within N := h.block_ok p hp b (by rw [hb]; simp)
  have hcw : c.within N := h.block_ok p hp c (by
    rw [hb]
    rcases List.mem_append.1 hc with hc | hc
    · simp [hc]
    · simp [hc])
  unfold AllocatedBlock.within at hbw hcw
  have hcov := h.cover b.start (by omega) (by omega)
  rw [hpl, allocated_count_split, hb] at hcov
  have e1 : block_count b.start (bpre ++ b :: bpost) =
      block_count b.start (bpre ++ bpost) + 1 := by
    rw [block_count_append, block_count_append, block_count_cons]
    rw [if_pos ⟨le_refl _, by omega⟩]
    omega
  have e2 := block_count_pos_of_mem b.start (bpre ++ bpost) c hc (by omega) (by omega)
  omega

/-- C16 (deregistration on last block): in a reachable state with an empty
queue in which exactly one process `p` has the id, a successful `free_memory
id address` removes from the blocks of `p` the one block that starts at
`address`; a process with the id is registered afterwards exactly when a block
is left; if so the process list is the previous one with the blocks of `p`
cut down by that block, and otherwise it is the previous one without `p`; no
other process changes. -/
theorem deregistration_on_last_block (s : State) (h : Reachable MEMORY_SIZE s)
    (id address : Int) (pre : List Process) (p : Process) (post : List Process)
    (hpl : s.process_list = pre ++ p :: post) (hpre : ∀ q ∈ pre, q.process_id ≠ id)
    (hp : p.process_id = id) (hpost : ∀ q ∈ post, q.process_id ≠ id)
    (hq : s.waiting_queue = [])
    (hfree : (free_memory id address s).1 = FreeResult.freed) :
    ∃ bpre b bpost, p.allocated_blocks = bpre ++ b :: bpost ∧ b.start = address ∧
      (∀ c ∈ bpre ++ bpost, c.start ≠ address) ∧
      ((∃ q ∈ (free_memory id address s).2.process_list, q.process_id = id) ↔
        bpre ++ bpost ≠ []) ∧
      (bpre ++ bpost ≠ [] → (free_memory id address s).2.process_list =
        pre ++ { process_id := id, allocated_blocks := bpre ++ bpost } :: post) ∧
      (bpre ++ bpost = [] → (free_memory id address s).2.process_list = pre ++ post) := by
  have hwf := reachable_wf MEMORY_SIZE (by decide) s h
  obtain ⟨p', b, hp', hb, hfm⟩ := free_memory_freed s id address hfree
  rw [hpl, find_process_first id p post pre hpre hp] at hp'
  simp only [Option.some.injEq] at hp'
  subst hp'
  obtain ⟨bpre, bpost, e1, _, e3, e4⟩ := find_block_split address _ b hb
  have hdist := block_starts_distinct MEMORY_SIZE s hwf pre p post hpl bpre b bpost e1
  rw [e3] at hdist
  have hlist : (free_memory id address s).2.process_list =
      match bpre ++ bpost with
      | [] => pre ++ post
      | _ :: _ => pre ++ { process_id := id, allocated_blocks := bpre ++ bpost } :: post := by
    rw [hfm, retry_waiting_empty _ (by simpa [release_block_queue] using hq)]
    simp only [release_block, e4, hpl, set_blocks_first id _ p post pre hpre hp]
    cases hrem : bpre ++ bpost with
    | nil =>
      simp only
      exact remove_process_first id _ post pre hpre rfl
    | cons c rest => rfl
  refine ⟨bpre, b, bpost, e1, e3, hdist, ?_, ?_, ?_⟩
  · rw [hlist]
    cases hrem : bpre ++ bpost with
    | nil =>
      simp only [ne_eq, not_true_eq_false, iff_false, not_exists, not_and]
      intro q hq'
      rcases List.mem_append.1 hq' with hq' | hq'
      · exact hpre q hq'
      · exact hpost q hq'
    | cons c rest =>
      simp only [ne_eq, reduceCtorEq, not_false_eq_true, iff_true]
      exact ⟨{ process_id := id, allocated_blocks := c :: rest }, by simp, rfl⟩
  · intro hne
    rw [hlist]
    cases hrem : bpre ++ bpost with
    | nil => exact absurd hrem hne
    | cons c rest => rfl
  · intro hnil
    rw [hlist, hnil]

/-- Witness for C16: `free 1 0` after `allocate 1 10` and `allocate 1 20`. -/
theorem deregistration_on_last_block_witness :
    (Reachable MEMORY_SIZE (allocate_memory 1 20 (allocate_memory 1 10 (initial_state MEMORY_SIZE)).2).2 ∧
      (allocate_memory 1 20 (allocate_memory 1 10 (initial_state MEMORY_SIZE)).2).2.process_list =
        [] ++ ({ process_id := 1, allocated_blocks := [{ start := 10, size := 20 }, { start := 0, size := 10 }] } : Process) :: [] ∧
      (allocate_memory 1 20 (allocate_memory 1 10 (initial_state MEMORY_SIZE)).2).2.waiting_queue = [] ∧
      (free_memory 1 0 (allocate_memory 1 20 (allocate_memory 1 10 (initial_state MEMORY_SIZE)).2).2).1 = FreeResult.freed) ∧
    ∃ bpre b bpost,
      ({ process_id := 1, allocated_blocks := [{ start := 10, size := 20 }, { start := 0, size := 10 }] } : Process).allocated_blocks = bpre ++ b :: bpost ∧ b.start = 0 ∧
      (∀ c ∈ bpre ++ bpost, c.start ≠ 0) ∧
      ((∃ q ∈ (free_memory 1 0 (allocate_memory 1 20 (allocate_memory 1 10 (initial_state MEMORY_SIZE)).2).2).2.process_list, q.process_id = 1) ↔
        bpre ++ bpost ≠ []) ∧
      (bpre ++ bpost ≠ [] → (free_memory 1 0 (allocate_memory 1 20 (allocate_memory 1 10 (initial_state MEMORY_SIZE)).2).2).2.process_list =
        [] ++ { process_id := 1, allocated_blocks := bpre ++ bpost } :: []) ∧
      (bpre ++ bpost = [] → (free_memory 1 0 (allocate_memory 1 20 (allocate_memory 1 10 (initial_state MEMORY_SIZE)).2).2).2.process_list = [] ++ []) :=
  ⟨⟨Reachable.allocate 1 20 (by decide) (Reachable.allocate 1 10 (by decide) Reachable.init),
      by decide, by decide, by decide⟩,
    deregistration_on_last_block _
      (Reachable.allocate 1 20 (by decide) (Reachable.allocate 1 10 (by decide) Reachable.init))
      1 0 [] { process_id := 1, allocated_blocks := [{ start := 10, size := 20 }, { start := 0, size := 10 }] } []
      (by decide) (by simp) rfl (by simp) (by decide) (by decide)⟩

/-- C11 (terminate frees everything), evaluated on the code: after `allocate 1
10` and `allocate 1 20` the queue is empty and process 1, the only process,
owns `[10,30)` and `[0,10)`.  `terminate 1` frees the first block `[10,30)`
and then reads `block->next` from the node that was just released: the run
stops there without reaching the end of `terminate_process`, with process 1
still registered, still owning `[0,10)`, and address 0 in no free block. -/
theorem terminate_stops_after_first_free :
    (allocate_memory 1 20 (allocate_memory 1 10 (initial_state MEMORY_SIZE)).2).2 =
      { free_list := [{ start := 30, size := 65506 }],
        process_list :=
          [{ process_id := 1,
             allocated_blocks := [{ start := 10, size := 20 }, { start := 0, size := 10 }] }],
        waiting_queue := [] } ∧
    terminate_process 1
        (allocate_memory 1 20 (allocate_memory 1 10 (initial_state MEMORY_SIZE)).2).2 =
      (TerminateResult.use_after_free,
        { free_list := [{ start := 10, size := 65526 }],
          process_list := [{ process_id := 1, allocated_blocks := [{ start := 0, size := 10 }] }],
          waiting_queue := [] }) ∧
    free_count 0 (terminate_process 1
        (allocate_memory 1 20 (allocate_memory 1 10 (initial_state MEMORY_SIZE)).2).2).2.free_list = 0 := by
  decide

/-! ## Sequential allocation -/

theorem allocate_memory_bump (N c id size : Int) (s : State) (hsize : 0 < size)
    (hfit : c + size ≤ N) (hfl : s.free_list = remaining_free N c) :
    allocate_memory id size s =
      (some c,
        { free_list := remaining_free N (c + size),
          process_list := record_block id { start := c, size := size } s.process_list,
          waiting_queue := s.waiting_queue }) := by
  have h1 : ¬ (c = N) := by omega
  have h2 : N - c ≥ size := by omega
  by_cases h3 : c + size = N
  · have h4 : N - c - size = 0 := by omega
    simp [allocate_memory, hfl, remaining_free, h1, first_fit, h2, h3, h4]
  · have h4 : ¬ (N - c - size = 0) := by omega
    have h5 : N - c - size = N - (c + size) := by omega
    have h6 : ¬ (N - (c + size) = 0) := by omega
    simp [allocate_memory, hfl, remaining_free, h1, first_fit, h2, h3, h5, h6]

theorem allocate_memory_bump_fits (N c id size a : Int) (s : State) (_hsize : 0 < size)
    (hfl : s.free_list = remaining_free N c)
    (h : (allocate_memory id size s).1 = some a) : c + size ≤ N := by
  by_contra hcon
  have hnone : first_fit size s.free_list = none := by
    rw [hfl]
    unfold remaining_free
    split_ifs with h1
    · rfl
    · have h2 : ¬ (N - c ≥ size) := by omega
      simp [first_fit, h2]
  rw [allocate_memory_none id size s hnone] at h
  simp at h

theorem allocate_all_bump (N : Int) :
    ∀ (reqs : List (Int × Int)) (s : State) (c : Int),
      (∀ r ∈ reqs, 0 < r.2) → c + (reqs.map Prod.snd).sum ≤ N →
      s.free_list = remaining_free N c →
      (∀ i, i < reqs.length →
        (allocate_all reqs s).1[i]? = some (some (c + ((reqs.take i).map Prod.snd).sum))) ∧
      (allocate_all reqs s).1.length = reqs.length ∧
      (allocate_all reqs s).2.free_list = remaining_free N (c + (reqs.map Prod.snd).sum) ∧
      (allocate_all reqs s).2.waiting_queue = s.waiting_queue := by
  intro reqs
  induction reqs with
  | nil =>
    intro s c _ _ hfl
    simp [allocate_all, hfl]
  | cons r rest ih =>
    intro s c hpos hsum hfl
    have hr : 0 < r.2 := hpos r (List.mem_cons_self _ _)
    have hrest : ∀ q ∈ rest, 0 < q.2 := fun q hq => hpos q (List.mem_cons_of_mem _ hq)
    have hnn : 0 ≤ (rest.map Prod.snd).sum := by
      apply List.sum_nonneg
      intro x hx
      obtain ⟨q, hq, rfl⟩ := List.mem_map.1 hx
      exact le_of_lt (hrest q hq)
    simp only [List.map_cons, List.sum_cons] at hsum
    have hstep := allocate_memory_bump N c r.1 r.2 s hr (by omega) hfl
    obtain ⟨h1, h2, h3, h4⟩ := ih (allocate_memory r.1 r.2 s).2 (c + r.2) hrest (by omega)
      (by rw [hstep])
    refine ⟨?_, ?_, ?_, ?_⟩
    · intro i hi
      cases i with
      | zero => simp [allocate_all, hstep]
      | succ j =>
        have hj : j < rest.length := by simpa using hi
        have := h1 j hj
        simp only [allocate_all, List.getElem?_cons_succ, this, List.take_succ_cons,
          List.map_cons, List.sum_cons]
        congr 2
        omega
    · simp [allocate_all, h2]
    · simp only [allocate_all, h3, List.map_cons, List.sum_cons]
      congr 1
      omega
    · show (allocate_all rest (allocate_memory r.1 r.2 s).2).2.waiting_queue = _
      rw [h4, hstep]

/-- C19 (sequential allocation bumps): from the initial state, for requests
`(id_1, s_1), .., (id_k, s_k)` with positive sizes whose sum does not exceed
`MEMORY_SIZE`, issued one after the other, the `i`-th `allocate_memory`
returns the address `s_1 + .. + s_(i-1)`; afterwards the free list is the one
block from the sum of the sizes to `MEMORY_SIZE`, or empty when the sum is
`MEMORY_SIZE`. -/
theorem sequential_allocation_bumps (reqs : List (Int × Int))
    (hpos : ∀ r ∈ reqs, 0 < r.2) (hsum : (reqs.map Prod.snd).sum ≤ MEMORY_SIZE) :
    (∀ i, i < reqs.length →
      (allocate_all reqs (initial_state MEMORY_SIZE)).1[i]? =
        some (some (((reqs.take i).map Prod.snd).sum))) ∧
    (allocate_all reqs (initial_state MEMORY_SIZE)).1.length = reqs.length ∧
    (allocate_all reqs (initial_state MEMORY_SIZE)).2.free_list =
      (if (reqs.map Prod.snd).sum = MEMORY_SIZE then []
        else [{ start := (reqs.map Prod.snd).sum,
                size := MEMORY_SIZE - (reqs.map Prod.snd).sum }]) := by
  have hinit : (initial_state MEMORY_SIZE).free_list = remaining_free MEMORY_SIZE 0 := by
    decide
  obtain ⟨h1, h2, h3, _⟩ := allocate_all_bump MEMORY_SIZE reqs (initial_state MEMORY_SIZE) 0
    hpos (by omega) hinit
  refine ⟨?_, h2, ?_⟩
  · intro i hi
    simpa using h1 i hi
  · simpa [remaining_free] using h3

/-- Witness for C19: the requests `(1, 10)`, `(2, 20)`, `(1, 5)`. -/
theorem sequential_allocation_bumps_witness :
    ((∀ r ∈ [((1 : Int), (10 : Int)), (2, 20), (1, 5)], 0 < r.2) ∧
      (([((1 : Int), (10 : Int)), (2, 20), (1, 5)]).map Prod.snd).sum ≤ MEMORY_SIZE) ∧
    (∀ i, i < [((1 : Int), (10 : Int)), (2, 20), (1, 5)].length →
      (allocate_all [(1, 10), (2, 20), (1, 5)] (initial_state MEMORY_SIZE)).1[i]? =
        some (some ((([((1 : Int), (10 : Int)), (2, 20), (1, 5)].take i).map Prod.snd).sum))) ∧
    (allocate_all [(1, 10), (2, 20), (1, 5)] (initial_state MEMORY_SIZE)).1.length =
      [((1 : Int), (10 : Int)), (2, 20), (1, 5)].length ∧
    (allocate_all [(1, 10), (2, 20), (1, 5)] (initial_state MEMORY_SIZE)).2.free_list =
      (if (([((1 : Int), (10 : Int)), (2, 20), (1, 5)]).map Prod.snd).sum = MEMORY_SIZE then []
        else [{ start := (([((1 : Int), (10 : Int)), (2, 20), (1, 5)]).map Prod.snd).sum,
                size := MEMORY_SIZE -
                  (([((1 : Int), (10 : Int)), (2, 20), (1, 5)]).map Prod.snd).sum }]) :=
  ⟨⟨by decide, by decide⟩,
    sequential_allocation_bumps [(1, 10), (2, 20), (1, 5)] (by decide) (by decide)⟩

/-! ## Freeing in reverse order -/

theorem coalesce_bump (N c size : Int) (hsize : 0 < size) (hfit : c + size ≤ N) :
    coalesce ({ start := c, size := size } :: remaining_free N (c + size)) =
      remaining_free N c := by
  have h1 : ¬ (c = N) := by omega
  by_cases h3 : c + size = N
  · have h4 : size = N - c := by omega
    simp [remaining_free, h1, h3, coalesce, merge_from, h4]
  · have h4 : size + (N - (c + size)) = N - c := by omega
    simp [remaining_free, h1, h3, coalesce, merge_from, h4]

theorem attach_block_some (id : Int) (b : AllocatedBlock) :
    ∀ (procs procs' : List Process), attach_block id b procs = some procs' →
      ∃ pre p post, procs = pre ++ p :: post ∧ (∀ q ∈ pre, q.process_id ≠ id) ∧
        p.process_id = id ∧
        procs' = pre ++ { process_id := id, allocated_blocks := b :: p.allocated_blocks } ::
          post := by
  intro procs
  induction procs with
  | nil => intro procs' h; simp [attach_block] at h
  | cons q rest ih =>
    intro procs' h
    unfold attach_block at h
    split_ifs at h with h1
    · simp at h
      subst h
      exact ⟨[], q, rest, rfl, by simp, h1, by simp [h1]⟩
    · cases hat : attach_block id b rest with
      | none => simp [hat] at h
      | some r =>
        simp [hat] at h
        subst h
        obtain ⟨pre, p, post, e1, e2, e3, e4⟩ := ih r hat
        refine ⟨q :: pre, p, post, by simp [e1], ?_, e3, by simp [e4]⟩
        intro x hx
        rcases List.mem_cons.1 hx with rfl | hx
        · exact h1
        · exact e2 x hx

theorem record_block_blocks_ne_nil (id : Int) (b : AllocatedBlock) (procs : List Process)
    (h : ∀ p ∈ procs, p.allocated_blocks ≠ []) :
    ∀ p ∈ record_block id b procs, p.allocated_blocks ≠ [] := by
  unfold record_block
  cases hat : attach_block id b procs with
  | none =>
    intro p hp
    rcases List.mem_cons.1 hp with rfl | hp
    · simp
    · exact h p hp
  | some procs' =>
    obtain ⟨pre, p0, post, e1, _, _, e4⟩ := attach_block_some id b procs procs' hat
    intro p hp
    simp only [e4] at hp
    rcases List.mem_append.1 hp with hp | hp
    · exact h p (by rw [e1]; simp [hp])
    · rcases List.mem_cons.1 hp with rfl | hp
      · simp
      · exact h p (by rw [e1]; simp [hp])

theorem free_memory_undoes_bump (N c id size : Int) (s : State) (hsize : 0 < size)
    (hfit : c + size ≤ N) (hne : ∀ p ∈ s.process_list, p.allocated_blocks ≠ [])
    (s1 : State) (h1 : s1.free_list = remaining_free N (c + size))
    (h2 : s1.process_list = record_block id { start := c, size := size } s.process_list)
    (h3 : s1.waiting_queue = []) :
    free_memory id c s1 =
      (FreeResult.freed,
        { free_list := remaining_free N c, process_list := s.process_list,
          waiting_queue := [] }) := by
  have hco := coalesce_bump N c size hsize hfit
  unfold record_block at h2
  cases hat : attach_block id { start := c, size := size } s.process_list with
  | none =>
    rw [hat] at h2
    simp only at h2
    have hrel : release_block id c
        { process_id := id, allocated_blocks := [{ start := c, size := size }] }
        { start := c, size := size } s1 =
        { free_list := remaining_free N c, process_list := s.process_list,
          waiting_queue := [] } := by
      simp [release_block, unlink_block, h1, h2, h3, hco, set_blocks, remove_process]
    unfold free_memory
    simp only [h2, find_process, if_true, find_block]
    rw [hrel]
    exact retry_waiting_empty _ rfl
  | some procs' =>
    rw [hat] at h2
    simp only at h2
    obtain ⟨pre, p, post, e1, e2, e3, e4⟩ := attach_block_some id _ _ _ hat
    have hpne : p.allocated_blocks ≠ [] := hne p (by rw [e1]; simp)
    have hpeq : ({ process_id := id, allocated_blocks := p.allocated_blocks } : Process) = p := by
      cases p
      simp_all
    have hfind : find_process id s1.process_list =
        some { process_id := id,
               allocated_blocks := { start := c, size := size } :: p.allocated_blocks } := by
      rw [h2, e4]
      exact find_process_first id _ post pre e2 rfl
    have hrel : release_block id c
        { process_id := id,
          allocated_blocks := { start := c, size := size } :: p.allocated_blocks }
        { start := c, size := size } s1 =
        { free_list := remaining_free N c, process_list := s.process_list,
          waiting_queue := [] } := by
      have hset : set_blocks id p.allocated_blocks s1.process_list = s.process_list := by
        rw [h2, e4, set_blocks_first id _ _ post pre e2 rfl, hpeq, e1]
      cases hb : p.allocated_blocks with
      | nil => exact absurd hb hpne
      | cons b0 bs =>
        rw [hb] at hset
        simp [release_block, unlink_block, h1, h3, hco, hset, hb]
    unfold free_memory
    rw [hfind]
    simp only [find_block, if_true]
    rw [hrel]
    exact retry_waiting_empty _ rfl

theorem free_all_append :
    ∀ (l1 l2 : List (Int × Int)) (s : State),
      free_all (l1 ++ l2) s =
        ((free_all l1 s).1 ++ (free_all l2 (free_all l1 s).2).1,
          (free_all l2 (free_all l1 s).2).2) := by
  intro l1
  induction l1 with
  | nil => intro l2 s; simp [free_all]
  | cons x rest ih =>
    intro l2 s
    simp [free_all, ih]

theorem stack_round_trip (N : Int) :
    ∀ (reqs : List (Int × Int)) (addrs : List Int) (s : State) (c : Int),
      s.free_list = remaining_free N c → s.waiting_queue = [] →
      (∀ p ∈ s.process_list, p.allocated_blocks ≠ []) →
      (∀ r ∈ reqs, 0 < r.2) →
      (allocate_all reqs s).1 = addrs.map some →
      free_all ((reqs.map Prod.fst).zip addrs).reverse (allocate_all reqs s).2 =
        (List.replicate reqs.length FreeResult.freed, s) := by
  intro reqs
  induction reqs with
  | nil =>
    intro addrs s c _ _ _ _ _
    simp [allocate_all, free_all]
  | cons r rest ih =>
    intro addrs s c hfl hq hne hpos hok
    have hr : 0 < r.2 := hpos r (List.mem_cons_self _ _)
    have hrest : ∀ q ∈ rest, 0 < q.2 := fun q hq => hpos q (List.mem_cons_of_mem _ hq)
    cases addrs with
    | nil => simp [allocate_all] at hok
    | cons a addrs' =>
      simp only [allocate_all, List.map_cons, List.cons.injEq] at hok
      obtain ⟨hok1, hok2⟩ := hok
      have hfit := allocate_memory_bump_fits N c r.1 r.2 a s hr hfl hok1
      have hstep := allocate_memory_bump N c r.1 r.2 s hr hfit hfl
      have ha : a = c := by
        rw [hstep] at hok1
        simpa using hok1.symm
      subst ha
      have hs1fl : (allocate_memory r.1 r.2 s).2.free_list = remaining_free N (a + r.2) := by
        rw [hstep]
      have hs1pl : (allocate_memory r.1 r.2 s).2.process_list =
          record_block r.1 { start := a, size := r.2 } s.process_list := by
        rw [hstep]
      have hs1q : (allocate_memory r.1 r.2 s).2.waiting_queue = [] := by
        rw [hstep]
        exact hq
      have hrec := ih addrs' (allocate_memory r.1 r.2 s).2 (a + r.2) hs1fl hs1q
        (by rw [hs1pl]; exact record_block_blocks_ne_nil _ _ _ hne) hrest hok2
      have hundo := free_memory_undoes_bump N a r.1 r.2 s hr hfit hne
        (allocate_memory r.1 r.2 s).2 hs1fl hs1pl hs1q
      have hs : State.mk (remaining_free N a) s.process_list [] = s := by
        cases s
        simp_all
      rw [hs] at hundo
      simp only [allocate_all, List.map_cons, List.zip_cons_cons, List.reverse_cons,
        free_all_append, hrec, free_all, hundo, List.length_cons]
      simp [List.replicate_succ']

/-- C20 (reverse-order free): from the initial state, when the requests
`(id_1, s_1), .., (id_k, s_k)` with positive sizes are all granted, at the
addresses `addrs`, with no free in between, then freeing the `k` blocks in the
reverse of their allocation order, each with the id of its owner and its
address, succeeds every time and ends in the initial state: the free list is
the single block `{0, MEMORY_SIZE}`, no process is registered and the queue
is empty. -/
theorem reverse_free_restores (reqs : List (Int × Int)) (addrs : List Int)
    (hpos : ∀ r ∈ reqs, 0 < r.2)
    (hok : (allocate_all reqs (initial_state MEMORY_SIZE)).1 = addrs.map some) :
    free_all ((reqs.map Prod.fst).zip addrs).reverse
        (allocate_all reqs (initial_state MEMORY_SIZE)).2 =
      (List.replicate reqs.length FreeResult.freed,
        { free_list := [{ start := 0, size := MEMORY_SIZE }], process_list := [],
          waiting_queue := [] }) := by
  have h := stack_round_trip MEMORY_SIZE reqs addrs (initial_state MEMORY_SIZE) 0
    (by decide) rfl (by simp [initial_state]) hpos hok
  rw [h]
  rfl

/-- Witness for C20: the requests `(1, 10)`, `(2, 20)`, `(1, 5)`, granted at
0, 10 and 30. -/
theorem reverse_free_restores_witness :
    ((∀ r ∈ [((1 : Int), (10 : Int)), (2, 20), (1, 5)], 0 < r.2) ∧
      (allocate_all [(1, 10), (2, 20), (1, 5)] (initial_state MEMORY_SIZE)).1 =
        [(0 : Int), 10, 30].map some) ∧
    free_all (([((1 : Int), (10 : Int)), (2, 20), (1, 5)].map Prod.fst).zip
          [(0 : Int), 10, 30]).reverse
        (allocate_all [(1, 10), (2, 20), (1, 5)] (initial_state MEMORY_SIZE)).2 =
      (List.replicate [((1 : Int), (10 : Int)), (2, 20), (1, 5)].length FreeResult.freed,
        { free_list := [{ start := 0, size := MEMORY_SIZE }], process_list := [],
          waiting_queue := [] }) :=
  ⟨⟨by decide, by decide⟩,
    reverse_free_restores [(1, 10), (2, 20), (1, 5)] [0, 10, 30] (by decide) (by decide)⟩

/-! ## Memory report -/

theorem show_memory_loop_passed (N : Int) (fc : FreeBlock) (rest : List FreeBlock) :
    ∀ (fuel : Nat) (c : Int), fc.start < c →
      show_memory_loop N [] fuel c (fc :: rest) = [] := by
  intro fuel
  induction fuel with
  | zero => intro c _; rfl
  | succ n ih =>
    intro c hc
    have hne : ¬ (fc.start = c) := by omega
    unfold show_memory_loop
    split_ifs with h1
    · simp only [scan_processes, if_neg hne]
      exact ih (c + 1) (by omega)
    · rfl

theorem show_memory_loop_unsorted (n : Nat) :
    show_memory_loop MEMORY_SIZE [] (n + 11) 0
        [{ start := 10, size := 10 }, { start := 0, size := 10 }, { start := 20, size := 65516 }] =
      { start := 10, stop := 19, owner := none } ::
        show_memory_loop MEMORY_SIZE [] n 20
          [{ start := 0, size := 10 }, { start := 20, size := 65516 }] := by
  simp [show_memory_loop, scan_processes, MEMORY_SIZE]

/-- C18 (memory report), evaluated on the code: in the state reached by
`allocate 1 10`, `allocate 2 10`, `free 1 0`, `free 2 10` all memory is free
and the free list is `[10,20), [0,10), [20,65536)`.  `show_memory` prints the
single row `10 .. 19 Free`, and no further row however many passes the loop is
given: the free list is walked once in list order, so the blocks `[0,10)` and
`[20,65536)` are never at hand when the running address reaches their start,
and the addresses `0 .. 9` and `20 .. 65535` appear in no row. -/
theorem memory_report_skips_ranges :
    (free_memory 2 10 (free_memory 1 0 (allocate_memory 2 10
      (allocate_memory 1 10 (initial_state MEMORY_SIZE)).2).2).2).2 =
      { free_list := [{ start := 10, size := 10 }, { start := 0, size := 10 },
          { start := 20, size := 65516 }],
        process_list := [], waiting_queue := [] } ∧
    show_memory (free_memory 2 10 (free_memory 1 0 (allocate_memory 2 10
      (allocate_memory 1 10 (initial_state MEMORY_SIZE)).2).2).2).2 =
      [{ start := 10, stop := 19, owner := none }] ∧
    ∀ n : Nat, show_memory_loop MEMORY_SIZE [] (n + 11) 0
      [{ start := 10, size := 10 }, { start := 0, size := 10 },
        { start := 20, size := 65516 }] =
      [{ start := 10, stop := 19, owner := none }] := by
  have hstate : (free_memory 2 10 (free_memory 1 0 (allocate_memory 2 10
      (allocate_memory 1 10 (initial_state MEMORY_SIZE)).2).2).2).2 =
      { free_list := [{ start := 10, size := 10 }, { start := 0, size := 10 },
          { start := 20, size := 65516 }],
        process_list := [], waiting_queue := [] } := by
    decide
  have hrows : ∀ n : Nat, show_memory_loop MEMORY_SIZE [] (n + 11) 0
      [{ start := 10, size := 10 }, { start := 0, size := 10 },
        { start := 20, size := 65516 }] =
      [{ start := 10, stop := 19, owner := none }] := by
    intro n
    rw [show_memory_loop_unsorted n,
      show_memory_loop_passed MEMORY_SIZE _ _ n 20 (by decide)]
  refine ⟨hstate, ?_, hrows⟩
  rw [hstate]
  have hfuel : MEMORY_SIZE.toNat = 65525 + 11 := by decide
  unfold show_memory
  rw [hfuel]
  exact hrows 65525

end MemSim
